import Mathlib

/-!
Verification development for the smartbookmarks repository (src/api/index.py).

The bookmark store and Netscape-format interchange layer are shallowly embedded:

* Python `str` values become `String` (a wrapper around `List Char`); character
  classes (`\s`, `\d`, `str.strip`, `str.lower`) are modelled over the ASCII
  range, which covers every character the code itself produces.
* Timestamps: the code stores `created` as an ISO-8601 string produced by
  `datetime.isoformat` and converts it back with `datetime.fromisoformat`
  followed by `.timestamp()`.  Since the two conversions are mutually inverse
  at 1-second granularity, `created` is modelled directly as the epoch-second
  `Nat`.  `datetime.fromtimestamp n` raises for years past 9999; this is
  modelled by the bound `n ≤ 253402300799` with a fall-back to the supplied
  current time, mirroring the `except:` branch in `parse_netscape_bookmarks`.
* `datetime.now()` values (fresh ids, creation instants, export banner date)
  are not derivable from the state, so every operation that reads the clock
  takes them as explicit parameters.
* Each Flask handler that can write the store is modelled as a function
  returning the HTTP-level response together with `saved : Option (List _)`:
  `some bs` exactly when the handler reaches its `save_bookmarks` call with
  collection `bs`, `none` when it returns on an error path first.
* The `tags` value is stored without any validation by the code, so the
  bookmark record and the store operations are generic over the type `τ` of
  the tags field; serializers that iterate tags instantiate `τ := List String`.
-/

/-- Python whitespace class (`str.strip`, regex `\s`), ASCII range. -/
def pyWs (c : Char) : Bool :=
  c == ' ' || c == '\t' || c == '\n' || c == '\r' || c == '\x0b' || c == '\x0c'

/-- Python `str.strip()` on a character list: drop whitespace from both ends. -/
def pyStripL (l : List Char) : List Char :=
  ((l.dropWhile pyWs).reverse.dropWhile pyWs).reverse

/-- Python `str.strip()`. -/
def pyStrip (s : String) : String := ⟨pyStripL s.data⟩

/-- Python `str.lower()` on a character list (ASCII range). -/
def pyLowerL (l : List Char) : List Char := l.map Char.toLower

/-- Python `str.rstrip('/')` on a character list: drop trailing slashes. -/
def rstripSlashL (l : List Char) : List Char :=
  (l.reverse.dropWhile (fun c => c == '/')).reverse

/-- The duplicate-detection key used throughout `index.py`:
`url.lower().rstrip('/')`. -/
def dedupKeyL (l : List Char) : List Char := pyLowerL (rstripSlashL l)

/-- The duplicate-detection key `url.lower().rstrip('/')` on strings. -/
def dedupKey (s : String) : String := ⟨dedupKeyL s.data⟩

/-- `url.startswith(('http://', 'https://'))` from the normalization steps. -/
def httpPrefixed (l : List Char) : Bool :=
  "http://".data.isPrefixOf l || "https://".data.isPrefixOf l

/-- URL normalization shared by `add_bookmark`, `update_bookmark` and
`parse_netscape_bookmarks`: prepend `https://` when no scheme prefix is
present. -/
def ensureScheme (s : String) : String :=
  if httpPrefixed s.data then s else "https://" ++ s

/-- Characters terminating the authority component in `urlparse`. -/
def urlDelim (c : Char) : Bool := c == '/' || c == '?' || c == '#'

/-- The part of a scheme-prefixed URL after `http://` / `https://`. -/
def afterSchemeL (l : List Char) : List Char :=
  if "http://".data.isPrefixOf l then l.drop 7 else l.drop 8

/-- Model of `urlparse(url).netloc` for the URLs the code validates.  Both
validation sites run after normalization, so the input always starts with the
literal `http://` or `https://`; `netloc` is then the text up to the next
`/`, `?` or `#`.  (`parsed.scheme` is non-empty for every such input, so the
code's `not parsed.scheme or not parsed.netloc` test reduces to the netloc
test.) -/
def urlNetloc (s : String) : String :=
  ⟨(afterSchemeL s.data).takeWhile (fun c => !urlDelim c)⟩

/-- Python `str.replace(c, r)` for a single-character pattern `c`. -/
def pyReplace1 (l : List Char) (c : Char) (r : List Char) : List Char :=
  l.flatMap (fun x => if x = c then r else [x])

/-- The `escape_html` helper defined (identically) inside `export_bookmarks`
and `export_bookmarks_netscape`: five successive `str.replace` calls, `&`
first. -/
def escape_html (s : String) : String :=
  ⟨pyReplace1 (pyReplace1 (pyReplace1 (pyReplace1 (pyReplace1
      s.data '&' "&amp;".data) '<' "&lt;".data) '>' "&gt;".data)
      '"' "&quot;".data) '\'' "&#x27;".data⟩

/-- Per-character action of the escape chain (the five patterns are single
characters, each replacement string is free of the patterns still pending, so
the chain acts independently on every character). -/
def escapeChar (c : Char) : List Char :=
  if c = '&' then "&amp;".data
  else if c = '<' then "&lt;".data
  else if c = '>' then "&gt;".data
  else if c = '"' then "&quot;".data
  else if c = '\'' then "&#x27;".data
  else [c]

/-- Character-level form of `escape_html`. -/
def escapeL (l : List Char) : List Char := l.flatMap escapeChar

/-- Decimal digit character for `n < 10`. -/
def digitCharOf (n : Nat) : Char :=
  match n with
  | 0 => '0' | 1 => '1' | 2 => '2' | 3 => '3' | 4 => '4'
  | 5 => '5' | 6 => '6' | 7 => '7' | 8 => '8' | _ => '9'

/-- Decimal representation of a `Nat` (fuel-driven accumulator form; any
fuel above the input is enough, see `natDecimalF_irrel`), as Python's
`str(int)` / f-string formatting produces it. -/
def natDecimalF : Nat → Nat → List Char → List Char
  | 0, _, acc => acc
  | fuel + 1, n, acc =>
    if n < 10 then digitCharOf n :: acc
    else natDecimalF fuel (n / 10) (digitCharOf (n % 10) :: acc)

/-- Decimal representation of a `Nat`. -/
def natDecimal (n : Nat) : List Char := natDecimalF (n + 1) n []

/-- Numeric value of a digit string, as Python's `int()` computes it. -/
def digitsVal (l : List Char) : Nat :=
  l.foldl (fun a c => 10 * a + (c.toNat - 48)) 0

/-- The partial record produced by `parse_netscape_bookmarks` (title, url,
description, created; no id/category/tags) and consumed by
`export_bookmarks_netscape` (which reads exactly these four fields). -/
structure NItem where
  title : String
  url : String
  description : String
  created : Nat
deriving Repr, DecidableEq

/-- Fixed header emitted by `export_bookmarks_netscape`. -/
def nsHeader : String :=
  "<!DOCTYPE NETSCAPE-Bookmark-file-1>\n<!-- This is an automatically generated file.\n     It will be read and overwritten.\n     DO NOT EDIT! -->\n<META HTTP-EQUIV=\"Content-Type\" CONTENT=\"text/html; charset=UTF-8\">\n<TITLE>Bookmarks</TITLE>\n<H1>Bookmarks</H1>\n<DL><p>\n"

/-- One `<DT><A ...>` line (plus optional `<DD>` line) of the Netscape
export, per bookmark. -/
def nsEntry (b : NItem) : String :=
  "    <DT><A HREF=\"" ++ escape_html b.url ++ "\" ADD_DATE=\"" ++
    (⟨natDecimal b.created⟩ : String) ++ "\">" ++ escape_html b.title ++ "</A>\n" ++
    (if b.description ≠ "" then "    <DD>" ++ escape_html b.description ++ "\n" else "")

/-- `export_bookmarks_netscape` (the response body): fixed header, one entry
per bookmark, closing `</DL><p>`. -/
def export_bookmarks_netscape (items : List NItem) : String :=
  nsHeader ++ String.join (items.map nsEntry) ++ "</DL><p>"

/-- Case-insensitive literal match: `ciStarts p l` holds when the lowercase
pattern `p` is a prefix of `l` up to `Char.toLower` (regex `re.IGNORECASE`). -/
def ciStarts : List Char → List Char → Bool
  | [], _ => true
  | _ :: _, [] => false
  | p :: ps, c :: cs => (c.toLower == p) && ciStarts ps cs

/-- The `"?(\d+)` portion of the anchor pattern: an optional quote, then a
maximal non-empty digit run (the capture). -/
def parseDateDigits (l : List Char) : Option (List Char) :=
  let l1 := if l.head? == some '"' then l.tail else l
  let ds := l1.takeWhile Char.isDigit
  if ds.isEmpty then none else some ds

/-- Backtracking result of `[^>]*ADD_DATE="?(\d+)"?` inside the non-`>` run:
the greedy `[^>]*` commits to the **last** position at which the literal
`ADD_DATE=` (case-insensitive) followed by `"?(\d+)` matches. -/
def findAddDate : List Char → Option (List Char)
  | [] => none
  | c :: rest =>
    match findAddDate rest with
    | some d => some d
    | none =>
      if ciStarts "add_date=".data (c :: rest) then
        parseDateDigits ((c :: rest).drop 9)
      else none

/-- One raw match of the anchor regex
`<A\s+HREF="([^"]+)"[^>]*ADD_DATE="?(\d+)"?[^>]*>([^<]+)</A>`
(with `re.IGNORECASE`): the three capture groups and the suffix of the input
following the match (`content[match.end():]`). -/
structure RawA where
  url : List Char
  dateDigits : List Char
  title : List Char
  rest : List Char

/-- Attempt to match the anchor regex at the head of `l`.  Each regex piece
is deterministic here: `([^"]+)"` and `([^<]+)</A>` are runs up to the next
delimiter (`dropWhile` stops exactly at the delimiter, so a non-empty
remainder necessarily starts with it), `\s+HREF` forces the maximal
whitespace run, and the greedy `[^>]*` before `ADD_DATE` is resolved by
`findAddDate` inside the maximal non-`>` run (the trailing `"?[^>]*>` then
always matches up to the closing `>`). -/
def tryMatchA (l : List Char) : Option RawA :=
  match l with
  | a :: c :: l2 =>
    if a != '<' || c.toLower != 'a' then none
    else if (l2.takeWhile pyWs).isEmpty then none
    else
      let l3 := l2.dropWhile pyWs
      if !ciStarts "href=\"".data l3 then none
      else
        let l4 := l3.drop 6
        let url := l4.takeWhile (fun x => x != '"')
        if url.isEmpty then none
        else if (l4.dropWhile (fun x => x != '"')).isEmpty then none
        else
          let l5 := (l4.dropWhile (fun x => x != '"')).tail
          match findAddDate (l5.takeWhile (fun x => x != '>')) with
          | none => none
          | some ds =>
            if (l5.dropWhile (fun x => x != '>')).isEmpty then none
            else
              let l6 := (l5.dropWhile (fun x => x != '>')).tail
              let t := l6.takeWhile (fun x => x != '<')
              if t.isEmpty then none
              else if ciStarts "</a>".data (l6.dropWhile (fun x => x != '<')) then
                some ⟨url, ds, t, (l6.dropWhile (fun x => x != '<')).drop 4⟩
              else none
  | _ => none

/-- Fuel-driven form of the `re.finditer` scan (any fuel at or above the
input length computes the scan, see `scanAF_irrel`): try a match at every
position, left to right; on success continue at the match end (matches never
overlap), on failure advance one character. -/
def scanAF : Nat → List Char → List RawA
  | 0, _ => []
  | fuel + 1, l =>
    match tryMatchA l with
    | some m => m :: scanAF fuel m.rest
    | none =>
      match l with
      | [] => []
      | _ :: t => scanAF fuel t

/-- The scan performed by `re.finditer` over the whole input. -/
def scanA (l : List Char) : List RawA := scanAF l.length l

/-- The first-match search `re.search(r'<DD>([^<]+)', window)` used for
descriptions: the first position whose text starts with the literal `<DD>`
(this inner pattern is compiled without `re.IGNORECASE`) followed by at
least one non-`<` character wins; the capture is the non-`<` run, truncated
at the end of the 200-character window. -/
def ddSearch : List Char → Option (List Char)
  | [] => none
  | c :: rest =>
    if "<DD>".data.isPrefixOf (c :: rest) then
      let cap := ((c :: rest).drop 4).takeWhile (fun x => x != '<')
      if cap.isEmpty then ddSearch rest else some cap
    else ddSearch rest

/-- Largest epoch second `datetime.fromtimestamp` accepts (end of year 9999);
beyond it the call raises and the parser falls back to the current time. -/
def maxPyTimestamp : Nat := 253402300799

/-- Build one parsed bookmark from a raw anchor match, as the loop body of
`parse_netscape_bookmarks` does: strip and default the title, look for a
`<DD>` description within the 200-character lookahead window, interpret
`ADD_DATE` as epoch seconds (falling back to `now` when out of range), and
prepend `https://` to scheme-less URLs. -/
def mkParsed (now : Nat) (m : RawA) : NItem :=
  let title0 := pyStripL m.title
  let desc := match ddSearch (m.rest.take 200) with
    | some cap => pyStripL cap
    | none => []
  let ts := digitsVal m.dateDigits
  { title := if title0.isEmpty then "Untitled" else ⟨title0⟩
    url := ensureScheme ⟨m.url⟩
    description := ⟨desc⟩
    created := if ts ≤ maxPyTimestamp then ts else now }

/-- `parse_netscape_bookmarks(content)`: scan for anchor matches and convert
each to a partial bookmark.  `now` stands for `datetime.now()` in the
date-parsing fall-back. -/
def parse_netscape_bookmarks (content : String) (now : Nat) : List NItem :=
  (scanA content.data).map (mkParsed now)

/-- A stored bookmark record.  The store never validates the `tags` value,
so the record is generic over the tags type `τ`; every other field is a
string except `created` (epoch seconds, see the header comment). -/
structure Bookmark (τ : Type) where
  id : String
  title : String
  url : String
  description : String
  tags : τ
  category : String
  created : Nat
deriving Repr, DecidableEq

/-- Optional fields of a JSON request body for `add_bookmark` /
`update_bookmark` (`none` models an absent key, matching the code's
`'field' in data` and `data.get(...)` accesses). -/
structure ReqData (τ : Type) where
  title : Option String := none
  url : Option String := none
  description : Option String := none
  tags : Option τ := none
  category : Option String := none
deriving Repr, DecidableEq

/-- Outcome of a handler: the JSON value on success, or the HTTP status code
and error message of an early `return jsonify({'error': ...}), code`. -/
inductive ApiResp (α : Type) where
  | ok (val : α)
  | err (code : Nat) (msg : String)
deriving Repr, DecidableEq

/-- Result of a mutating handler: its response, plus `saved = some bs`
exactly when the handler reached its `save_bookmarks(bs)` call (and `none`
when an error path returned before any write). -/
structure MutResult (α : Type) (τ : Type) where
  resp : ApiResp α
  saved : Option (List (Bookmark τ))
deriving Repr, DecidableEq

/-- `add_bookmark` (POST /api/bookmarks): validate the URL (required,
scheme-normalized, parseable netloc), reject duplicate normalized URLs,
then append the new record and persist.  `newId` models
`str(datetime.now().timestamp())`, `now` the creation instant; `emptyTags`
models the literal `[]` default of `data.get('tags', [])` under the generic
tags model. -/
def add_bookmark {τ : Type} (emptyTags : τ) (bs : List (Bookmark τ))
    (data : ReqData τ) (newId : String) (now : Nat) : MutResult (Bookmark τ) τ :=
  let url0 := pyStrip (data.url.getD "")
  if url0 = "" then ⟨.err 400 "URL is required", none⟩
  else
    let url := ensureScheme url0
    if urlNetloc url = "" then ⟨.err 400 "Invalid URL format", none⟩
    else if bs.any (fun b => dedupKey b.url == dedupKey url) then
      ⟨.err 409 "A bookmark with this URL already exists", none⟩
    else
      let nb : Bookmark τ :=
        { id := newId
          title := pyStrip (data.title.getD "")
          url := url
          description := pyStrip (data.description.getD "")
          tags := data.tags.getD emptyTags
          category :=
            if pyStrip (data.category.getD "") = "" then "Uncategorized"
            else pyStrip (data.category.getD "")
          created := now }
      ⟨.ok nb, some (bs ++ [nb])⟩

/-- Field assignments of `update_bookmark` after validation: only keys
present in the request are applied; `id` and `created` are untouched. -/
def applyFields {τ : Type} (data : ReqData τ) (newUrl : Option String)
    (b : Bookmark τ) : Bookmark τ :=
  { b with
    url := newUrl.getD b.url
    title := match data.title with | some t => pyStrip t | none => b.title
    description := match data.description with | some d => pyStrip d | none => b.description
    tags := match data.tags with | some v => v | none => b.tags
    category := match data.category with
      | some c => if pyStrip c = "" then "Uncategorized" else pyStrip c
      | none => b.category }

/-- Replace the first record whose id matches (the Python code mutates the
first matching dict in place). -/
def setFirst {τ : Type} : List (Bookmark τ) → String → Bookmark τ → List (Bookmark τ)
  | [], _, _ => []
  | x :: xs, bid, b => if x.id = bid then b :: xs else x :: setFirst xs bid b

/-- `update_bookmark` (PUT /api/bookmarks/id): look up the record; when a
`url` key is present, re-run normalization, format validation and the
duplicate check (excluding every record with the updated id); apply the
present fields; persist the collection with the first matching record
replaced. -/
def update_bookmark {τ : Type} (bs : List (Bookmark τ)) (bid : String)
    (data : ReqData τ) : MutResult (Bookmark τ) τ :=
  match bs.find? (fun b => b.id == bid) with
  | none => ⟨.err 404 "Bookmark not found", none⟩
  | some b =>
    match data.url with
    | some u =>
      let u0 := pyStrip u
      if u0 = "" then ⟨.err 400 "URL cannot be empty", none⟩
      else
        let url := ensureScheme u0
        if urlNetloc url = "" then ⟨.err 400 "Invalid URL format", none⟩
        else if bs.any (fun bb => bb.id != bid && dedupKey bb.url == dedupKey url) then
          ⟨.err 409 "A bookmark with this URL already exists", none⟩
        else
          let upd := applyFields data (some url) b
          ⟨.ok upd, some (setFirst bs bid upd)⟩
    | none =>
      let upd := applyFields data none b
      ⟨.ok upd, some (setFirst bs bid upd)⟩

/-- `delete_bookmark` (DELETE /api/bookmarks/id): filter out every record
with the given id, persist unconditionally, answer `{'success': True}`. -/
def delete_bookmark {τ : Type} (bs : List (Bookmark τ)) (bid : String) :
    MutResult Bool τ :=
  ⟨.ok true, some (bs.filter (fun b => b.id != bid))⟩

/-- `bulk_delete_bookmarks` (DELETE /api/bookmarks/bulk) for a well-formed
`ids` array: drop every record whose id is listed, persist, report the
number removed. -/
def bulk_delete_bookmarks {τ : Type} (bs : List (Bookmark τ)) (ids : List String) :
    MutResult (Bool × Nat) τ :=
  let remaining := bs.filter (fun b => !ids.contains b.id)
  ⟨.ok (true, bs.length - remaining.length), some remaining⟩

/-- `get_categories` (GET /api/categories), applied to the collection's
category fields (`none` models a record without a `'category'` key):
`bookmark.get('category', 'Uncategorized')` defaults only absent keys, the
`if category:` truthiness test then drops empty strings, the results are
collected in a set and returned sorted. -/
def get_categories (cats : List (Option String)) : List String :=
  (((cats.map (fun c => c.getD "Uncategorized")).filter (fun c => c != "")).dedup).mergeSort
    (fun a b => a ≤ b)

/-- The record appended for a parsed, non-duplicate import: fresh id,
category `Imported`, empty tags. -/
def mkImported {τ : Type} (emptyTags : τ) (p : NItem) (newId : String) : Bookmark τ :=
  { id := newId
    title := p.title
    url := p.url
    description := p.description
    tags := emptyTags
    category := "Imported"
    created := p.created }

/-- The per-bookmark loop of `import_bookmarks`: skip (and count) any parsed
bookmark whose dedup key is in the running URL set, otherwise append it with
id `idGen new_count` (modelling `str(datetime.now().timestamp() + new_count)`)
and add its key to the set. -/
def importLoop {τ : Type} (emptyTags : τ) (idGen : Nat → String) :
    List NItem → List (Bookmark τ) → List String → Nat → Nat →
    List (Bookmark τ) × Nat × Nat
  | [], bs, _, newCount, skipped => (bs, newCount, skipped)
  | p :: rest, bs, existing, newCount, skipped =>
    let key := dedupKey p.url
    if existing.contains key then
      importLoop emptyTags idGen rest bs existing newCount (skipped + 1)
    else
      importLoop emptyTags idGen rest (bs ++ [mkImported emptyTags p (idGen newCount)])
        (key :: existing) (newCount + 1) skipped

/-- Import result counts `{imported, skipped, total}`. -/
structure ImportStats where
  imported : Nat
  skipped : Nat
  total : Nat
deriving Repr, DecidableEq

/-- `import_bookmarks` (POST /api/import) after the file has been read:
parse the content, fail when nothing was extracted, otherwise run the dedup
loop against the existing collection's normalized URLs and persist once at
the end. -/
def import_bookmarks {τ : Type} (emptyTags : τ) (content : String)
    (bs : List (Bookmark τ)) (idGen : Nat → String) (now : Nat) :
    MutResult ImportStats τ :=
  let parsed := parse_netscape_bookmarks content now
  if parsed.isEmpty then ⟨.err 400 "No bookmarks found in file", none⟩
  else
    let r := importLoop emptyTags idGen parsed bs
      (bs.map (fun b => dedupKey b.url)) 0 0
    ⟨.ok ⟨r.2.1, r.2.2, parsed.length⟩, some r.1⟩

/-- One mutating request against the store, with its clock-derived inputs. -/
inductive StoreOp (τ : Type) where
  | add (data : ReqData τ) (newId : String) (now : Nat)
  | upd (bid : String) (data : ReqData τ)
  | del (bid : String)
  | bulkDel (ids : List String)
  | imp (content : String) (idGen : Nat → String) (now : Nat)

/-- The collection persisted after one request: the handler's saved
collection, or the unchanged one when the handler errored before saving. -/
def applyOp {τ : Type} (emptyTags : τ) (bs : List (Bookmark τ)) :
    StoreOp τ → List (Bookmark τ)
  | .add data newId now => ((add_bookmark emptyTags bs data newId now).saved).getD bs
  | .upd bid data => ((update_bookmark bs bid data).saved).getD bs
  | .del bid => ((delete_bookmark bs bid).saved).getD bs
  | .bulkDel ids => ((bulk_delete_bookmarks bs ids).saved).getD bs
  | .imp content idGen now => ((import_bookmarks emptyTags content bs idGen now).saved).getD bs

/-- The collection persisted after a sequence of requests. -/
def applyOps {τ : Type} (emptyTags : τ) (bs : List (Bookmark τ))
    (ops : List (StoreOp τ)) : List (Bookmark τ) :=
  ops.foldl (applyOp emptyTags) bs

/-- The id column of a collection. -/
def bookmarkIds {τ : Type} (bs : List (Bookmark τ)) : List String :=
  bs.map (fun b => b.id)

/-- Freshness of the clock-generated ids an operation brings along: the ids
`str(datetime.now().timestamp() ...)` do not collide with stored ids (nor,
for an import batch, with each other).  The code itself never checks this. -/
def opFresh {τ : Type} (bs : List (Bookmark τ)) : StoreOp τ → Prop
  | .add _ newId _ => newId ∉ bookmarkIds bs
  | .imp _ idGen _ => Function.Injective idGen ∧ ∀ k, idGen k ∉ bookmarkIds bs
  | _ => True

/-- Freshness along a whole operation sequence, each op judged against the
collection it actually sees. -/
def FreshAlong {τ : Type} (emptyTags : τ) :
    List (Bookmark τ) → List (StoreOp τ) → Prop
  | _, [] => True
  | bs, op :: ops => opFresh bs op ∧ FreshAlong emptyTags (applyOp emptyTags bs op) ops
/-- Styled-export head text, segment a. -/
def styledHead1a : String :=
  "<!DOCTYPE html>\n<html lang=\"en\">\n<head>\n    <meta charset=\"UTF-8\">\n    <meta name=\"viewport\" content=\"width=device-width, initial-scale=1.0\">\n    <title>My Bookmarks</title>\n    <style>\n        * \x7b\n            margin: 0;\n            padding: 0;\n            box-sizing: border-box;\n        \x7d\n\n        body \x7b\n            font-family: \x27Segoe UI\x27, Tahoma, Geneva, Verdana, sans-serif;\n            min-height: 100vh;\n            background: linear-gradient(135deg, #667eea 0%, #764ba2 25%, #f093fb 50%, #4facfe 75%, #00f2fe 100%);\n            background-size: 400% 400%;\n            animation: gradientShift 15s ease infinite;\n            padding: 20px;\n            overflow-x: hidden;\n        \x7d\n\n        @keyframes gradientShift \x7b\n            0% \x7b background-position: 0% 50%; \x7d\n            50% \x7b backgro"

/-- Styled-export head text, segment b. -/
def styledHead1b : String :=
  "und-position: 100% 50%; \x7d\n            100% \x7b background-position: 0% 50%; \x7d\n        \x7d\n\n        .container \x7b\n            max-width: 1200px;\n            margin: 0 auto;\n        \x7d\n\n        .header \x7b\n            text-align: center;\n            margin-bottom: 30px;\n        \x7d\n\n        .header h1 \x7b\n            color: white;\n            font-size: 3rem;\n            font-weight: 700;\n            text-shadow: 0 4px 20px rgba(0, 0, 0, 0.3);\n            margin-bottom: 10px;\n        \x7d\n\n        .header p \x7b\n            color: rgba(255, 255, 255, 0.9);\n            font-size: 1.1rem;\n        \x7d\n\n        .bookmarks-grid \x7b\n            display: grid;\n            grid-template-columns: repeat(auto-fill, minmax(300px, 1fr));\n            gap: 20px;\n            margin-top: 30px;\n        \x7d\n\n        .bookmark-card \x7b"

/-- Styled-export head text, segment c. -/
def styledHead1c : String :=
  "\n            background: rgba(255, 255, 255, 0.1);\n            backdrop-filter: blur(20px);\n            -webkit-backdrop-filter: blur(20px);\n            border-radius: 16px;\n            border: 1px solid rgba(255, 255, 255, 0.2);\n            padding: 20px;\n            transition: all 0.3s ease;\n            animation: fadeIn 0.5s ease;\n        \x7d\n\n        @keyframes fadeIn \x7b\n            from \x7b\n                opacity: 0;\n                transform: translateY(20px);\n            \x7d\n            to \x7b\n                opacity: 1;\n                transform: translateY(0);\n            \x7d\n        \x7d\n\n        .bookmark-card:hover \x7b\n            transform: translateY(-5px);\n            box-shadow: 0 12px 40px 0 rgba(31, 38, 135, 0.5);\n            background: rgba(255, 255, 255, 0.15);\n        \x7d\n\n        .b"

/-- Styled-export head text, segment d. -/
def styledHead1d : String :=
  "ookmark-title \x7b\n            color: white;\n            font-size: 1.3rem;\n            font-weight: 700;\n            margin-bottom: 8px;\n            word-wrap: break-word;\n        \x7d\n\n        .bookmark-title a \x7b\n            color: white;\n            text-decoration: none;\n            transition: color 0.3s ease;\n        \x7d\n\n        .bookmark-title a:hover \x7b\n            color: rgba(255, 255, 255, 0.8);\n            text-decoration: underline;\n        \x7d\n\n        .bookmark-url \x7b\n            color: rgba(255, 255, 255, 0.7);\n            font-size: 0.9rem;\n            margin-bottom: 10px;\n            word-break: break-all;\n        \x7d\n\n        .bookmark-description \x7b\n            color: rgba(255, 255, 255, 0.8);\n            font-size: 0.95rem;\n            margin-bottom: 15px;\n            line-height: 1."

/-- Styled-export head text, segment e. -/
def styledHead1e : String :=
  "5;\n        \x7d\n\n        .bookmark-tags \x7b\n            display: flex;\n            flex-wrap: wrap;\n            gap: 8px;\n            margin-bottom: 15px;\n        \x7d\n\n        .tag \x7b\n            background: rgba(255, 255, 255, 0.2);\n            padding: 4px 12px;\n            border-radius: 20px;\n            font-size: 0.8rem;\n            color: white;\n        \x7d\n\n        .empty-state \x7b\n            text-align: center;\n            padding: 60px 20px;\n            color: white;\n            background: rgba(255, 255, 255, 0.1);\n            backdrop-filter: blur(20px);\n            border-radius: 20px;\n            border: 1px solid rgba(255, 255, 255, 0.2);\n        \x7d\n\n        .empty-state h2 \x7b\n            font-size: 2rem;\n            margin-bottom: 10px;\n        \x7d\n\n        .empty-state p \x7b\n            fo"

/-- Styled-export head text, segment f. -/
def styledHead1f : String :=
  "nt-size: 1.1rem;\n            opacity: 0.8;\n        \x7d\n\n        @media (max-width: 768px) \x7b\n            .header h1 \x7b\n                font-size: 2rem;\n            \x7d\n\n            .bookmarks-grid \x7b\n                grid-template-columns: 1fr;\n            \x7d\n        \x7d\n    </style>\n</head>\n<body>\n    <div class=\"container\">\n        <div class=\"header\">\n            <h1>âœ¨ My Bookmarks</h1>\n            <p>Exported on "

/-- Styled-export page text before the banner date (the segments
concatenated). -/
def styledHead1 : String :=
  styledHead1a ++ styledHead1b ++ styledHead1c ++ styledHead1d ++ styledHead1e ++ styledHead1f

/-- Styled-export page text between the banner date and the grid. -/
def styledHead2 : String :=
  "</p>\n        </div>\n        <div class=\"bookmarks-grid\">\n"

/-- Styled-export empty-state block for an empty collection. -/
def styledEmpty : String :=
  "\n            <div class=\"empty-state\">\n                <h2>ðŸ“š No bookmarks</h2>\n                <p>No bookmarks to display</p>\n            </div>\n"

/-- Styled-export card template piece 1. -/
def cardP1 : String :=
  "\n            <div class=\"bookmark-card\">\n                <div class=\"bookmark-title\">\n                    <a href=\""

/-- Styled-export card template piece 2. -/
def cardP2 : String :=
  "\" target=\"_blank\" rel=\"noopener noreferrer\">\n                        "

/-- Styled-export card template piece 3. -/
def cardP3 : String :=
  "\n                    </a>\n                </div>\n                <div class=\"bookmark-url\">"

/-- Styled-export card template piece 4. -/
def cardP4 : String :=
  "</div>\n"

/-- Styled-export description line pieces. -/
def descP1 : String :=
  "                <div class=\"bookmark-description\">"

/-- Styled-export description closing text. -/
def descP2 : String :=
  "</div>\n"

/-- Styled-export tag block opening text. -/
def tagsOpen : String :=
  "                <div class=\"bookmark-tags\">\n"

/-- Styled-export tag chip opening text. -/
def tagP1 : String :=
  "                    <span class=\"tag\">"

/-- Styled-export tag chip closing text. -/
def tagP2 : String :=
  "</span>\n"

/-- Styled-export tag block closing text. -/
def tagsClose : String :=
  "                </div>\n"

/-- Styled-export card closing text. -/
def cardEnd : String :=
  "            </div>\n"

/-- Styled-export page footer. -/
def styledFooter : String :=
  "        </div>\n    </div>\n</body>\n</html>"

/-- One bookmark card of the styled export: title link, URL line, optional
description, optional tag chips; every user-controlled value is passed
through `escape_html` first.  Tags are iterated here, so the card is stated
at `τ := List String`. -/
def styledCard (b : Bookmark (List String)) : String :=
  cardP1 ++ escape_html b.url ++ cardP2 ++ escape_html b.title ++ cardP3 ++
    escape_html b.url ++ cardP4 ++
  (if b.description ≠ "" then descP1 ++ escape_html b.description ++ descP2 else "") ++
  (if b.tags ≠ [] then
      tagsOpen ++ String.join (b.tags.map (fun tg => tagP1 ++ escape_html tg ++ tagP2)) ++
        tagsClose
    else "") ++
  cardEnd

/-- `export_bookmarks` (GET /api/export): the standalone styled page.
`now` models `datetime.now().strftime('%B %d, %Y at %I:%M %p')` in the
banner. -/
def export_bookmarks (bs : List (Bookmark (List String))) (now : String) : String :=
  styledHead1 ++ now ++ styledHead2 ++
    (if bs.isEmpty then styledEmpty else String.join (bs.map styledCard)) ++
    styledFooter

/-- No character of `l` is one of the five HTML metacharacters escaped by
`escape_html`. -/
def cleanL (l : List Char) : Bool :=
  l.all (fun c => !(c == '&' || c == '<' || c == '>' || c == '"' || c == '\''))

/-- Conditions under which one bookmark survives the Netscape round trip
unchanged: non-blank, whitespace-trimmed title and description free of the
five HTML metacharacters, a metacharacter-free URL already carrying its
scheme prefix, and a description short enough for the parser's 200-character
lookahead window (at most 191 characters after the 9 characters preceding it
on its line). -/
def GoodItem (b : NItem) : Prop :=
  b.title.data ≠ [] ∧ pyStripL b.title.data = b.title.data ∧ cleanL b.title.data = true ∧
  httpPrefixed b.url.data = true ∧ cleanL b.url.data = true ∧
  b.description.data ≠ [] ∧ pyStripL b.description.data = b.description.data ∧
  cleanL b.description.data = true ∧ b.description.data.length ≤ 191

instance (b : NItem) : Decidable (GoodItem b) := by
  unfold GoodItem; infer_instance

/-- The concatenated `<DT>` entries of a Netscape export, at character level. -/
def entriesL (items : List NItem) : List Char :=
  match items with
  | [] => []
  | b :: rest => (nsEntry b).data ++ entriesL rest

/-- No anchor match can begin inside `l` (for any continuation): no `<`
immediately followed by `a`/`A`, and no trailing `<`. -/
def noAStart : List Char → Bool
  | [] => true
  | [c] => c != '<'
  | c :: d :: t => (c != '<' || d.toLower != 'a') && noAStart (d :: t)

/-- Whether `l` begins with `sc` (the two characters completing `<sc`). -/
def startsSc (l : List Char) : Bool := "sc".data.isPrefixOf l

/-- `l` does not contain the character sequence `<sc` (hence in particular
no `<script>`). -/
def noLtSc : List Char → Bool
  | [] => true
  | c :: rest => (c != '<' || !startsSc rest) && noLtSc rest

/-- Neither of the last two characters of `l` is `<` (so no `<sc` can start
in `l` and finish in an appended continuation). -/
def noTailLt : List Char → Bool
  | [] => true
  | [a] => a != '<'
  | [a, b] => a != '<' && b != '<'
  | _ :: rest => noTailLt rest

/-- The tails that may legitimately follow a `&` in escaped output: the five
entities emitted by `escape_html`. -/
def entTail (l : List Char) : Bool :=
  "amp;".data.isPrefixOf l || "lt;".data.isPrefixOf l || "gt;".data.isPrefixOf l ||
    "quot;".data.isPrefixOf l || "#x27;".data.isPrefixOf l

/-- Every `&` in `l` starts one of the five escape entities (no raw,
unescaped ampersand). -/
def ampOk : List Char → Bool
  | [] => true
  | c :: rest => (c != '&' || entTail rest) && ampOk rest

/-- Substring occurrence test: `containsSeq p l` holds when `p` occurs
contiguously inside `l`. -/
def containsSeq (p : List Char) : List Char → Bool
  | [] => p.isEmpty
  | c :: t => p.isPrefixOf (c :: t) || containsSeq p t

/-- Combined safety facts about a piece of styled-export output: no `<sc`
sequence, every ampersand escaped, and no `<` within two characters of the
end. -/
def safePiece (l : List Char) : Bool := noLtSc l && ampOk l && noTailLt l

/-! ### Scan machinery: unfolding equations for the fuel-driven definitions -/

theorem tryMatchA_not_lt {c : Char} (l : List Char) (h : c ≠ '<') :
    tryMatchA (c :: l) = none := by
  cases l with
  | nil => rfl
  | cons d t => simp [tryMatchA, h]

theorem tryMatchA_not_a {c : Char} {d : Char} (l : List Char) (h : d.toLower ≠ 'a') :
    tryMatchA (c :: d :: l) = none := by
  simp [tryMatchA, h]

theorem tryMatchA_rest_suffix {l : List Char} {m : RawA} (h : tryMatchA l = some m) :
    ∃ a c l2, l = a :: c :: l2 ∧ m.rest.IsSuffix l2 := by
  match l with
  | [] => simp [tryMatchA] at h
  | [c] => simp [tryMatchA] at h
  | a :: c :: l2 =>
    refine ⟨a, c, l2, rfl, ?_⟩
    simp only [tryMatchA] at h
    split at h
    · exact absurd h (by simp)
    · split at h
      · exact absurd h (by simp)
      · split at h
        · exact absurd h (by simp)
        · split at h
          · exact absurd h (by simp)
          · split at h
            · exact absurd h (by simp)
            · split at h
              · exact absurd h (by simp)
              · split at h
                · exact absurd h (by simp)
                · split at h
                  · exact absurd h (by simp)
                  · split at h
                    · cases h
                      have h1 : (List.dropWhile pyWs l2).IsSuffix l2 :=
                        List.dropWhile_suffix _
                      have h2 : (List.drop 6 (List.dropWhile pyWs l2)).IsSuffix l2 :=
                        (List.drop_suffix _ _).trans h1
                      have h3 : ((List.dropWhile (fun x => x != '"')
                          (List.drop 6 (List.dropWhile pyWs l2))).tail).IsSuffix l2 :=
                        ((List.tail_suffix _).trans (List.dropWhile_suffix _)).trans h2
                      have h4 : ((List.dropWhile (fun x => x != '>')
                          ((List.dropWhile (fun x => x != '"')
                            (List.drop 6 (List.dropWhile pyWs l2))).tail)).tail).IsSuffix l2 :=
                        ((List.tail_suffix _).trans (List.dropWhile_suffix _)).trans h3
                      exact ((List.drop_suffix _ _).trans (List.dropWhile_suffix _)).trans h4
                    · exact absurd h (by simp)

theorem tryMatchA_rest_lt {l : List Char} {m : RawA} (h : tryMatchA l = some m) :
    m.rest.length < l.length := by
  obtain ⟨a, c, l2, rfl, hs⟩ := tryMatchA_rest_suffix h
  have := hs.length_le
  simp only [List.length_cons]
  omega

theorem scanAF_nil (fuel : Nat) : scanAF fuel [] = [] := by
  cases fuel <;> rfl

theorem scanAF_irrel : ∀ (fuel fuel' : Nat) (l : List Char),
    l.length ≤ fuel → l.length ≤ fuel' → scanAF fuel l = scanAF fuel' l := by
  intro fuel
  induction fuel with
  | zero =>
    intro fuel' l h _
    have : l = [] := by cases l <;> simp_all
    subst this
    simp [scanAF_nil]
  | succ n ih =>
    intro fuel' l h h'
    cases l with
    | nil => simp [scanAF_nil]
    | cons c t =>
      cases fuel' with
      | zero => simp at h'
      | succ m =>
        cases hm : tryMatchA (c :: t) with
        | some mt =>
          have hlt := tryMatchA_rest_lt hm
          simp only [List.length_cons] at h h' hlt
          simp only [scanAF, hm]
          rw [ih m mt.rest (by omega) (by omega)]
        | none =>
          simp only [List.length_cons] at h h'
          simp only [scanAF, hm]
          exact ih m t (by omega) (by omega)

theorem scanA_cons_none {c : Char} {t : List Char} (h : tryMatchA (c :: t) = none) :
    scanA (c :: t) = scanA t := by
  show scanAF (t.length + 1) (c :: t) = scanA t
  simp only [scanAF, h]
  rfl

theorem scanA_some {l : List Char} {m : RawA} (h : tryMatchA l = some m) :
    scanA l = m :: scanA m.rest := by
  obtain ⟨a, c, l2, rfl, hs⟩ := tryMatchA_rest_suffix h
  show scanAF (l2.length + 2) (a :: c :: l2) = m :: scanA m.rest
  simp only [scanAF, h]
  have := hs.length_le
  congr 1
  exact scanAF_irrel (l2.length + 1) m.rest.length m.rest (by omega) le_rfl

theorem scanA_skip : ∀ (l rest : List Char), noAStart l = true →
    scanA (l ++ rest) = scanA rest := by
  intro l
  induction l with
  | nil => simp
  | cons c l' ih =>
    intro rest h
    cases l' with
    | nil =>
      have hc : c ≠ '<' := by simpa [noAStart] using h
      simpa using scanA_cons_none (tryMatchA_not_lt rest hc)
    | cons d t =>
      have h1 : c ≠ '<' ∨ d.toLower ≠ 'a' := by
        have := h
        simp only [noAStart, Bool.and_eq_true, Bool.or_eq_true, bne_iff_ne] at this
        exact this.1
      have h2 : noAStart (d :: t) = true := by
        have := h
        simp only [noAStart, Bool.and_eq_true] at this
        exact this.2
      have hnone : tryMatchA (c :: d :: (t ++ rest)) = none := by
        rcases h1 with h1 | h1
        · exact tryMatchA_not_lt _ h1
        · exact tryMatchA_not_a _ h1
      have : (c :: d :: t) ++ rest = c :: d :: (t ++ rest) := by simp
      rw [this, scanA_cons_none hnone]
      exact ih rest h2

/-! ### Decimal representation -/

theorem digitCharOf_mem {k : Nat} (h : k < 10) : digitCharOf k ∈ "0123456789".data := by
  interval_cases k <;> decide

theorem digitCharOf_val {k : Nat} (h : k < 10) : (digitCharOf k).toNat - 48 = k := by
  interval_cases k <;> decide

theorem natDecimalF_spec : ∀ (n fuel : Nat) (acc : List Char), n < fuel →
    ∃ d, natDecimalF fuel n acc = d ++ acc ∧ d ≠ [] ∧
      (∀ c ∈ d, c ∈ "0123456789".data) ∧
      ∀ a : Nat, d.foldl (fun x c => 10 * x + (c.toNat - 48)) a = a * 10 ^ d.length + n := by
  intro n
  induction n using Nat.strong_induction_on with
  | _ n ih =>
    intro fuel acc hfuel
    match fuel, hfuel with
    | m + 1, _ =>
      by_cases h10 : n < 10
      · refine ⟨[digitCharOf n], by simp [natDecimalF, h10], by simp, ?_, ?_⟩
        · intro c hc
          simp at hc
          subst hc
          exact digitCharOf_mem h10
        · intro a
          simp [List.foldl, digitCharOf_val h10]
          omega
      · have hdiv : n / 10 < n := Nat.div_lt_self (by omega) (by omega)
        have hdivm : n / 10 < m := by omega
        obtain ⟨d, hd, hne, hdig, hval⟩ :=
          ih (n / 10) hdiv m (digitCharOf (n % 10) :: acc) hdivm
        refine ⟨d ++ [digitCharOf (n % 10)], ?_, by simp, ?_, ?_⟩
        · rw [natDecimalF]
          simp only [h10, if_false]
          rw [hd]
          simp
        · intro c hc
          rcases List.mem_append.mp hc with hc | hc
          · exact hdig c hc
          · simp at hc
            subst hc
            exact digitCharOf_mem (Nat.mod_lt _ (by omega))
        · intro a
          rw [List.foldl_append, hval a]
          simp only [List.foldl, List.length_append, List.length_singleton]
          rw [digitCharOf_val (Nat.mod_lt _ (by omega))]
          have : a * 10 ^ (d.length + 1) = a * 10 ^ d.length * 10 := by ring
          rw [this]
          omega

theorem natDecimal_spec (n : Nat) :
    natDecimal n ≠ [] ∧ (∀ c ∈ natDecimal n, c ∈ "0123456789".data) ∧
      digitsVal (natDecimal n) = n := by
  obtain ⟨d, hd, hne, hdig, hval⟩ := natDecimalF_spec n (n + 1) [] (by omega)
  unfold natDecimal digitsVal
  rw [hd]
  simp only [List.append_nil]
  exact ⟨hne, hdig, by rw [hval 0]; simp⟩

/-! ### The escape chain -/

theorem pyReplace1_append (x y : List Char) (p : Char) (r : List Char) :
    pyReplace1 (x ++ y) p r = pyReplace1 x p r ++ pyReplace1 y p r := by
  simp [pyReplace1]

theorem escape_chain (l : List Char) :
    pyReplace1 (pyReplace1 (pyReplace1 (pyReplace1 (pyReplace1
        l '&' "&amp;".data) '<' "&lt;".data) '>' "&gt;".data)
        '"' "&quot;".data) '\'' "&#x27;".data = escapeL l := by
  induction l with
  | nil => rfl
  | cons c l ih =>
    have hc : (c :: l) = [c] ++ l := rfl
    rw [hc]
    simp only [pyReplace1_append, ih]
    show pyReplace1 (pyReplace1 (pyReplace1 (pyReplace1 (pyReplace1
        [c] '&' "&amp;".data) '<' "&lt;".data) '>' "&gt;".data)
        '"' "&quot;".data) '\'' "&#x27;".data ++ escapeL l = escapeL ([c] ++ l)
    have : escapeL ([c] ++ l) = escapeChar c ++ escapeL l := by
      simp [escapeL]
    rw [this]
    congr 1
    by_cases h1 : c = '&'
    · subst h1; rfl
    · by_cases h2 : c = '<'
      · subst h2; rfl
      · by_cases h3 : c = '>'
        · subst h3; rfl
        · by_cases h4 : c = '"'
          · subst h4; rfl
          · by_cases h5 : c = '\''
            · subst h5; rfl
            · simp [pyReplace1, escapeChar, h1, h2, h3, h4, h5]

theorem escape_html_data (s : String) : (escape_html s).data = escapeL s.data := by
  show (String.mk _).data = _
  simp only [String.data]
  exact escape_chain s.data

theorem escapeChar_cases (c : Char) :
    escapeChar c = "&amp;".data ∨ escapeChar c = "&lt;".data ∨ escapeChar c = "&gt;".data ∨
      escapeChar c = "&quot;".data ∨ escapeChar c = "&#x27;".data ∨
      (escapeChar c = [c] ∧ c ≠ '&' ∧ c ≠ '<' ∧ c ≠ '>' ∧ c ≠ '"' ∧ c ≠ '\'') := by
  unfold escapeChar
  by_cases h1 : c = '&'
  · simp [h1]
  · by_cases h2 : c = '<'
    · simp [h1, h2]
    · by_cases h3 : c = '>'
      · simp [h1, h2, h3]
      · by_cases h4 : c = '"'
        · simp [h1, h2, h3, h4]
        · by_cases h5 : c = '\''
          · simp [h1, h2, h3, h4, h5]
          · simp [h1, h2, h3, h4, h5]

theorem escapeL_no_meta {l : List Char} :
    ∀ c ∈ escapeL l, c ≠ '<' ∧ c ≠ '>' ∧ c ≠ '"' ∧ c ≠ '\'' := by
  induction l with
  | nil => simp [escapeL]
  | cons x l ih =>
    intro c hc
    have : escapeL (x :: l) = escapeChar x ++ escapeL l := by simp [escapeL]
    rw [this] at hc
    rcases List.mem_append.mp hc with hc | hc
    · rcases escapeChar_cases x with h | h | h | h | h | ⟨h, hx⟩ <;> rw [h] at hc
      · exact (by decide : ∀ y ∈ "&amp;".data, y ≠ '<' ∧ y ≠ '>' ∧ y ≠ '"' ∧ y ≠ '\'') c hc
      · exact (by decide : ∀ y ∈ "&lt;".data, y ≠ '<' ∧ y ≠ '>' ∧ y ≠ '"' ∧ y ≠ '\'') c hc
      · exact (by decide : ∀ y ∈ "&gt;".data, y ≠ '<' ∧ y ≠ '>' ∧ y ≠ '"' ∧ y ≠ '\'') c hc
      · exact (by decide : ∀ y ∈ "&quot;".data, y ≠ '<' ∧ y ≠ '>' ∧ y ≠ '"' ∧ y ≠ '\'') c hc
      · exact (by decide : ∀ y ∈ "&#x27;".data, y ≠ '<' ∧ y ≠ '>' ∧ y ≠ '"' ∧ y ≠ '\'') c hc
      · simp at hc
        subst hc
        exact ⟨hx.2.1, hx.2.2.1, hx.2.2.2.1, hx.2.2.2.2⟩
    · exact ih c hc

theorem escapeL_clean_id {l : List Char} (h : cleanL l = true) : escapeL l = l := by
  induction l with
  | nil => rfl
  | cons c l ih =>
    simp only [cleanL, List.all_cons, Bool.and_eq_true] at h
    have hc : c ≠ '&' ∧ c ≠ '<' ∧ c ≠ '>' ∧ c ≠ '"' ∧ c ≠ '\'' := by
      have h1 := h.1
      simp only [Bool.not_eq_true'] at h1
      simp only [Bool.or_eq_false_iff, beq_eq_false_iff_ne] at h1
      obtain ⟨⟨⟨⟨ha, hb⟩, hc'⟩, hd⟩, he⟩ := h1
      exact ⟨ha, hb, hc', hd, he⟩
    have : escapeL (c :: l) = escapeChar c ++ escapeL l := by simp [escapeL]
    rw [this, ih h.2]
    simp [escapeChar, hc.1, hc.2.1, hc.2.2.1, hc.2.2.2.1, hc.2.2.2.2]

theorem escapeL_nonempty {l : List Char} (h : l ≠ []) : escapeL l ≠ [] := by
  cases l with
  | nil => exact absurd rfl h
  | cons c l =>
    have : escapeL (c :: l) = escapeChar c ++ escapeL l := by simp [escapeL]
    rw [this]
    rcases escapeChar_cases c with hh | hh | hh | hh | hh | ⟨hh, _⟩ <;> simp [hh]

theorem escapeL_ampOk (l : List Char) : ampOk (escapeL l) = true := by
  induction l with
  | nil => rfl
  | cons c l ih =>
    have hstep : escapeL (c :: l) = escapeChar c ++ escapeL l := by simp [escapeL]
    rw [hstep]
    rcases escapeChar_cases c with hh | hh | hh | hh | hh | ⟨hh, hx⟩ <;> rw [hh] <;>
      simp [ampOk, entTail, List.isPrefixOf, ih]
    exact Or.inl hx.1

/-! ### Matching one serialized anchor -/

theorem findAddDate_none_of_no_a {l : List Char} (h : ∀ c ∈ l, c.toLower ≠ 'a') :
    findAddDate l = none := by
  induction l with
  | nil => rfl
  | cons c rest ih =>
    rw [findAddDate, ih (fun x hx => h x (List.mem_cons_of_mem _ hx))]
    have hci : ciStarts "add_date=".data (c :: rest) = false := by
      show ciStarts ('a' :: "dd_date=".data) (c :: rest) = false
      simp only [ciStarts, Bool.and_eq_false_iff]
      left
      simpa using h c (List.mem_cons_self c rest)
    simp [hci]

theorem digit_char_facts :
    ∀ y ∈ "0123456789".data, y.toLower ≠ 'a' ∧ (y != '>') = true ∧ (y != '"') = true ∧
      (y != '<') = true ∧ y.isDigit = true := by decide

theorem findAddDate_entry (ds : List Char) (hds : ds ≠ [])
    (hdig : ∀ c ∈ ds, c ∈ "0123456789".data) :
    findAddDate ([' ', 'A', 'D', 'D', '_', 'D', 'A', 'T', 'E', '=', '"'] ++ (ds ++ ['"'])) =
      some ds := by
  have hnoA : ∀ c ∈ (ds ++ ['"']), c.toLower ≠ 'a' := by
    intro c hc
    rcases List.mem_append.mp hc with hc | hc
    · exact (digit_char_facts c (hdig c hc)).1
    · simp at hc; subst hc; decide
  have h0 : findAddDate (ds ++ ['"']) = none := findAddDate_none_of_no_a hnoA
  have h1 : findAddDate ('"' :: (ds ++ ['"'])) = none := by
    refine findAddDate_none_of_no_a ?_
    intro c hc
    rcases List.mem_cons.mp hc with hc | hc
    · subst hc; decide
    · exact hnoA c hc
  have h2 : findAddDate ('=' :: '"' :: (ds ++ ['"'])) = none := by
    refine findAddDate_none_of_no_a ?_
    intro c hc
    rcases List.mem_cons.mp hc with hc | hc
    · subst hc; decide
    · rcases List.mem_cons.mp hc with hc | hc
      · subst hc; decide
      · exact hnoA c hc
  have h3 : findAddDate ('E' :: '=' :: '"' :: (ds ++ ['"'])) = none := by
    rw [findAddDate, h2]
    have : ciStarts "add_date=".data ('E' :: '=' :: '"' :: (ds ++ ['"'])) = false := by
      show ciStarts ('a' :: "dd_date=".data) _ = false
      simp [ciStarts]
    simp [this]
  have h4 : findAddDate ('T' :: 'E' :: '=' :: '"' :: (ds ++ ['"'])) = none := by
    rw [findAddDate, h3]
    have : ciStarts "add_date=".data ('T' :: 'E' :: '=' :: '"' :: (ds ++ ['"'])) = false := by
      show ciStarts ('a' :: "dd_date=".data) _ = false
      simp [ciStarts]
    simp [this]
  have h5 : findAddDate ('A' :: 'T' :: 'E' :: '=' :: '"' :: (ds ++ ['"'])) = none := by
    rw [findAddDate, h4]
    have : ciStarts "add_date=".data ('A' :: 'T' :: 'E' :: '=' :: '"' :: (ds ++ ['"'])) = false := by
      show ciStarts ('a' :: 'd' :: "d_date=".data) _ = false
      simp [ciStarts]
    simp [this]
  have h6 : findAddDate ('D' :: 'A' :: 'T' :: 'E' :: '=' :: '"' :: (ds ++ ['"'])) = none := by
    rw [findAddDate, h5]
    have : ciStarts "add_date=".data ('D' :: 'A' :: 'T' :: 'E' :: '=' :: '"' :: (ds ++ ['"'])) = false := by
      show ciStarts ('a' :: "dd_date=".data) _ = false
      simp [ciStarts]
    simp [this]
  have h7 : findAddDate ('_' :: 'D' :: 'A' :: 'T' :: 'E' :: '=' :: '"' :: (ds ++ ['"'])) = none := by
    rw [findAddDate, h6]
    have : ciStarts "add_date=".data ('_' :: 'D' :: 'A' :: 'T' :: 'E' :: '=' :: '"' :: (ds ++ ['"'])) = false := by
      show ciStarts ('a' :: "dd_date=".data) _ = false
      simp [ciStarts]
    simp [this]
  have h8 : findAddDate ('D' :: '_' :: 'D' :: 'A' :: 'T' :: 'E' :: '=' :: '"' :: (ds ++ ['"'])) = none := by
    rw [findAddDate, h7]
    have : ciStarts "add_date=".data ('D' :: '_' :: 'D' :: 'A' :: 'T' :: 'E' :: '=' :: '"' :: (ds ++ ['"'])) = false := by
      show ciStarts ('a' :: 'd' :: "d_date=".data) _ = false
      simp [ciStarts]
    simp [this]
  have h9 : findAddDate ('D' :: 'D' :: '_' :: 'D' :: 'A' :: 'T' :: 'E' :: '=' :: '"' :: (ds ++ ['"'])) = none := by
    rw [findAddDate, h8]
    have : ciStarts "add_date=".data ('D' :: 'D' :: '_' :: 'D' :: 'A' :: 'T' :: 'E' :: '=' :: '"' :: (ds ++ ['"'])) = false := by
      show ciStarts ('a' :: 'd' :: 'd' :: "_date=".data) _ = false
      simp [ciStarts]
    simp [this]
  have hA : findAddDate ('A' :: 'D' :: 'D' :: '_' :: 'D' :: 'A' :: 'T' :: 'E' :: '=' :: '"' :: (ds ++ ['"'])) = some ds := by
    rw [findAddDate, h9]
    have hci : ciStarts "add_date=".data ('A' :: 'D' :: 'D' :: '_' :: 'D' :: 'A' :: 'T' :: 'E' :: '=' :: '"' :: (ds ++ ['"'])) = true := by
      show ciStarts ('a' :: 'd' :: 'd' :: '_' :: 'd' :: 'a' :: 't' :: 'e' :: '=' :: []) _ = true
      simp [ciStarts]
    rw [hci]
    simp only [if_true, List.drop]
    show parseDateDigits ('"' :: (ds ++ ['"'])) = some ds
    have htw : (ds ++ ['"']).takeWhile Char.isDigit = ds := by
      rw [List.takeWhile_append_of_pos (fun c hc => (digit_char_facts c (hdig c hc)).2.2.2.2)]
      simp [List.takeWhile]
    simp [parseDateDigits, htw, hds]
  show findAddDate (' ' :: ('A' :: 'D' :: 'D' :: '_' :: 'D' :: 'A' :: 'T' :: 'E' :: '=' :: '"' :: (ds ++ ['"']))) = some ds
  rw [findAddDate, hA]

theorem tryMatchA_entry (u ds t tail : List Char)
    (hu : u ≠ []) (huq : ∀ c ∈ u, c ≠ '"')
    (hds : ds ≠ []) (hdig : ∀ c ∈ ds, c ∈ "0123456789".data)
    (ht : t ≠ []) (htl : ∀ c ∈ t, c ≠ '<') :
    tryMatchA ('<' :: 'A' :: ' ' :: 'H' :: 'R' :: 'E' :: 'F' :: '=' :: '"' ::
      (u ++ '"' :: ' ' :: 'A' :: 'D' :: 'D' :: '_' :: 'D' :: 'A' :: 'T' :: 'E' :: '=' :: '"' ::
        (ds ++ '"' :: '>' :: (t ++ '<' :: '/' :: 'A' :: '>' :: tail)))) =
      some ⟨u, ds, t, tail⟩ := by
  have huq' : ∀ c ∈ u, (c != '"') = true := fun c hc => by simpa using huq c hc
  have htl' : ∀ c ∈ t, (c != '<') = true := fun c hc => by simpa using htl c hc
  have hmid : ∀ c ∈ ([' ', 'A', 'D', 'D', '_', 'D', 'A', 'T', 'E', '=', '"'] ++ ds ++ ['"']),
      (c != '>') = true := by
    intro c hc
    rcases List.mem_append.mp hc with hc | hc
    · rcases List.mem_append.mp hc with hc | hc
      · exact (by decide :
          ∀ y ∈ [' ', 'A', 'D', 'D', '_', 'D', 'A', 'T', 'E', '=', '"'], (y != '>') = true) c hc
      · exact (digit_char_facts c (hdig c hc)).2.1
    · exact (by decide : ∀ y ∈ ['"'], (y != '>') = true) c hc
  simp only [tryMatchA]
  rw [if_neg (by decide)]
  have hw1 : List.takeWhile pyWs (' ' :: 'H' :: 'R' :: 'E' :: 'F' :: '=' :: '"' ::
      (u ++ '"' :: ' ' :: 'A' :: 'D' :: 'D' :: '_' :: 'D' :: 'A' :: 'T' :: 'E' :: '=' :: '"' ::
        (ds ++ '"' :: '>' :: (t ++ '<' :: '/' :: 'A' :: '>' :: tail)))) = [' '] := by
    simp [List.takeWhile_cons, pyWs]
  have hw2 : List.dropWhile pyWs (' ' :: 'H' :: 'R' :: 'E' :: 'F' :: '=' :: '"' ::
      (u ++ '"' :: ' ' :: 'A' :: 'D' :: 'D' :: '_' :: 'D' :: 'A' :: 'T' :: 'E' :: '=' :: '"' ::
        (ds ++ '"' :: '>' :: (t ++ '<' :: '/' :: 'A' :: '>' :: tail)))) =
      'H' :: 'R' :: 'E' :: 'F' :: '=' :: '"' ::
      (u ++ '"' :: ' ' :: 'A' :: 'D' :: 'D' :: '_' :: 'D' :: 'A' :: 'T' :: 'E' :: '=' :: '"' ::
        (ds ++ '"' :: '>' :: (t ++ '<' :: '/' :: 'A' :: '>' :: tail))) := by
    simp [List.dropWhile_cons, pyWs]
  rw [hw1, hw2]
  rw [if_neg (by simp)]
  rw [if_neg (by
    show ¬ ((!ciStarts "href=\"".data _) = true)
    show ¬ ((!ciStarts ('h' :: 'r' :: 'e' :: 'f' :: '=' :: '"' :: []) _) = true)
    simp [ciStarts])]
  simp only [List.drop]
  have htk1 : List.takeWhile (fun x => x != '"')
      (u ++ '"' :: ' ' :: 'A' :: 'D' :: 'D' :: '_' :: 'D' :: 'A' :: 'T' :: 'E' :: '=' :: '"' ::
        (ds ++ '"' :: '>' :: (t ++ '<' :: '/' :: 'A' :: '>' :: tail))) = u := by
    rw [List.takeWhile_append_of_pos huq']
    simp [List.takeWhile_cons]
  have hdr1 : List.dropWhile (fun x => x != '"')
      (u ++ '"' :: ' ' :: 'A' :: 'D' :: 'D' :: '_' :: 'D' :: 'A' :: 'T' :: 'E' :: '=' :: '"' ::
        (ds ++ '"' :: '>' :: (t ++ '<' :: '/' :: 'A' :: '>' :: tail))) =
      '"' :: ' ' :: 'A' :: 'D' :: 'D' :: '_' :: 'D' :: 'A' :: 'T' :: 'E' :: '=' :: '"' ::
        (ds ++ '"' :: '>' :: (t ++ '<' :: '/' :: 'A' :: '>' :: tail)) := by
    rw [List.dropWhile_append_of_pos huq']
    simp [List.dropWhile_cons]
  rw [htk1, hdr1]
  rw [if_neg (by simpa using hu)]
  rw [if_neg (by simp)]
  simp only [List.tail_cons]
  have hsplit : (' ' :: 'A' :: 'D' :: 'D' :: '_' :: 'D' :: 'A' :: 'T' :: 'E' :: '=' :: '"' ::
      (ds ++ '"' :: '>' :: (t ++ '<' :: '/' :: 'A' :: '>' :: tail))) =
      ([' ', 'A', 'D', 'D', '_', 'D', 'A', 'T', 'E', '=', '"'] ++ (ds ++ ['"'])) ++
        ('>' :: (t ++ '<' :: '/' :: 'A' :: '>' :: tail)) := by
    simp
  rw [hsplit]
  have htk2 : List.takeWhile (fun x => x != '>')
      (([' ', 'A', 'D', 'D', '_', 'D', 'A', 'T', 'E', '=', '"'] ++ (ds ++ ['"'])) ++
        ('>' :: (t ++ '<' :: '/' :: 'A' :: '>' :: tail))) =
      [' ', 'A', 'D', 'D', '_', 'D', 'A', 'T', 'E', '=', '"'] ++ (ds ++ ['"']) := by
    rw [List.takeWhile_append_of_pos (by
      intro c hc
      apply hmid
      simpa using hc)]
    simp [List.takeWhile_cons]
  have hdr2 : List.dropWhile (fun x => x != '>')
      (([' ', 'A', 'D', 'D', '_', 'D', 'A', 'T', 'E', '=', '"'] ++ (ds ++ ['"'])) ++
        ('>' :: (t ++ '<' :: '/' :: 'A' :: '>' :: tail))) =
      '>' :: (t ++ '<' :: '/' :: 'A' :: '>' :: tail) := by
    rw [List.dropWhile_append_of_pos (by
      intro c hc
      apply hmid
      simpa using hc)]
    simp [List.dropWhile_cons]
  rw [htk2, hdr2, findAddDate_entry ds hds hdig]
  have htk3 : List.takeWhile (fun x => x != '<')
      (t ++ '<' :: '/' :: 'A' :: '>' :: tail) = t := by
    rw [List.takeWhile_append_of_pos htl']
    simp [List.takeWhile_cons]
  have hdr3 : List.dropWhile (fun x => x != '<')
      (t ++ '<' :: '/' :: 'A' :: '>' :: tail) = '<' :: '/' :: 'A' :: '>' :: tail := by
    rw [List.dropWhile_append_of_pos htl']
    simp [List.dropWhile_cons]
  simp only [List.tail_cons, List.isEmpty_cons, Bool.false_eq_true, if_false, htk3, hdr3]
  rw [if_neg (by simpa using ht)]
  rw [if_pos (by
    show ciStarts ('<' :: '/' :: 'a' :: '>' :: []) _ = true
    simp [ciStarts])]
  simp [List.drop]

theorem cleanL_props {l : List Char} (h : cleanL l = true) :
    ∀ c ∈ l, c ≠ '&' ∧ c ≠ '<' ∧ c ≠ '>' ∧ c ≠ '"' ∧ c ≠ '\'' := by
  intro c hc
  have hx := List.all_eq_true.mp h c hc
  simp only [Bool.not_eq_true', Bool.or_eq_false_iff, beq_eq_false_iff_ne] at hx
  obtain ⟨⟨⟨⟨ha, hb⟩, hc'⟩, hd⟩, he⟩ := hx
  exact ⟨ha, hb, hc', hd, he⟩

theorem noAStart_of_no_lt {l : List Char} (h : ∀ c ∈ l, c ≠ '<') : noAStart l = true := by
  induction l with
  | nil => rfl
  | cons c l ih =>
    cases l with
    | nil => simpa [noAStart] using h c (by simp)
    | cons d t =>
      simp only [noAStart, Bool.and_eq_true, Bool.or_eq_true, bne_iff_ne]
      exact ⟨Or.inl (h c (by simp)), ih (fun x hx => h x (List.mem_cons_of_mem _ hx))⟩

theorem noAStart_append {X Y : List Char} (hx : noAStart X = true) (hy : noAStart Y = true) :
    noAStart (X ++ Y) = true := by
  induction X with
  | nil => simpa using hy
  | cons c X' ih =>
    cases X' with
    | nil =>
      have hc : c ≠ '<' := by simpa [noAStart] using hx
      cases Y with
      | nil => simpa [noAStart] using hc
      | cons d t =>
        simp only [List.singleton_append, noAStart, Bool.and_eq_true, Bool.or_eq_true,
          bne_iff_ne]
        exact ⟨Or.inl hc, hy⟩
    | cons d t =>
      have h1 : c ≠ '<' ∨ d.toLower ≠ 'a' := by
        have := hx
        simp only [noAStart, Bool.and_eq_true, Bool.or_eq_true, bne_iff_ne] at this
        exact this.1
      have h2 : noAStart (d :: t) = true := by
        have := hx
        simp only [noAStart, Bool.and_eq_true] at this
        exact this.2
      have := ih h2
      simp only [List.cons_append] at this ⊢
      simp only [noAStart, Bool.and_eq_true, Bool.or_eq_true, bne_iff_ne]
      refine ⟨h1, ?_⟩
      simpa [List.cons_append] using this

theorem nsEntry_data (b : NItem) (hdesc : b.description ≠ "") :
    (nsEntry b).data =
      ([' ', ' ', ' ', ' ', '<', 'D', 'T', '>'] : List Char) ++
      ('<' :: 'A' :: ' ' :: 'H' :: 'R' :: 'E' :: 'F' :: '=' :: '"' ::
        (escapeL b.url.data ++ '"' :: ' ' :: 'A' :: 'D' :: 'D' :: '_' :: 'D' :: 'A' :: 'T' ::
          'E' :: '=' :: '"' ::
          (natDecimal b.created ++ '"' :: '>' ::
            (escapeL b.title.data ++ '<' :: '/' :: 'A' :: '>' ::
              ('\n' :: ([' ', ' ', ' ', ' ', '<', 'D', 'D', '>'] ++
                (escapeL b.description.data ++ ['\n']))))))) := by
  unfold nsEntry
  rw [if_pos hdesc]
  simp only [String.data_append, escape_html_data]
  simp [List.append_assoc, List.cons_append]

theorem scanA_entry_step (b : NItem) (rest : List Char) (hb : GoodItem b) :
    scanA ((nsEntry b).data ++ rest) =
      (⟨b.url.data, natDecimal b.created, b.title.data,
        '\n' :: ([' ', ' ', ' ', ' ', '<', 'D', 'D', '>'] ++
          (b.description.data ++ '\n' :: rest))⟩ : RawA) :: scanA rest := by
  obtain ⟨ht1, ht2, ht3, hu1, hu2, hd1, hd2, hd3, hd4⟩ := hb
  have hdesc : b.description ≠ "" := fun h => hd1 (by rw [h])
  have hu := escapeL_clean_id hu2
  have htt := escapeL_clean_id ht3
  have hdd := escapeL_clean_id hd3
  rw [nsEntry_data b hdesc, hu, htt, hdd]
  rw [List.append_assoc]
  rw [scanA_skip [' ', ' ', ' ', ' ', '<', 'D', 'T', '>'] _ (by decide)]
  have hurl_ne : b.url.data ≠ [] := by
    intro h
    rw [h] at hu1
    simp [httpPrefixed, List.isPrefixOf] at hu1
  have hurl_q : ∀ c ∈ b.url.data, c ≠ '"' := fun c hc => (cleanL_props hu2 c hc).2.2.2.1
  have htitle_ne : b.title.data ≠ [] := ht1
  have htitle_lt : ∀ c ∈ b.title.data, c ≠ '<' := fun c hc => (cleanL_props ht3 c hc).2.1
  obtain ⟨hds_ne, hds_dig, _⟩ := natDecimal_spec b.created
  have harr :
      ('<' :: 'A' :: ' ' :: 'H' :: 'R' :: 'E' :: 'F' :: '=' :: '"' ::
        (b.url.data ++ '"' :: ' ' :: 'A' :: 'D' :: 'D' :: '_' :: 'D' :: 'A' :: 'T' ::
          'E' :: '=' :: '"' ::
          (natDecimal b.created ++ '"' :: '>' ::
            (b.title.data ++ '<' :: '/' :: 'A' :: '>' ::
              ('\n' :: ([' ', ' ', ' ', ' ', '<', 'D', 'D', '>'] ++
                (b.description.data ++ ['\n']))))))) ++ rest =
      '<' :: 'A' :: ' ' :: 'H' :: 'R' :: 'E' :: 'F' :: '=' :: '"' ::
        (b.url.data ++ '"' :: ' ' :: 'A' :: 'D' :: 'D' :: '_' :: 'D' :: 'A' :: 'T' ::
          'E' :: '=' :: '"' ::
          (natDecimal b.created ++ '"' :: '>' ::
            (b.title.data ++ '<' :: '/' :: 'A' :: '>' ::
              ('\n' :: ([' ', ' ', ' ', ' ', '<', 'D', 'D', '>'] ++
                (b.description.data ++ '\n' :: rest)))))) := by
    simp [List.append_assoc]
  rw [harr]
  rw [scanA_some (tryMatchA_entry b.url.data (natDecimal b.created) b.title.data
    ('\n' :: ([' ', ' ', ' ', ' ', '<', 'D', 'D', '>'] ++ (b.description.data ++ '\n' :: rest)))
    hurl_ne hurl_q hds_ne hds_dig htitle_ne htitle_lt)]
  congr 1
  have hskip : ('\n' :: ([' ', ' ', ' ', ' ', '<', 'D', 'D', '>'] ++
      (b.description.data ++ '\n' :: rest))) =
      (('\n' :: [' ', ' ', ' ', ' ', '<', 'D', 'D', '>']) ++
        (b.description.data ++ ['\n'])) ++ rest := by
    simp [List.append_assoc]
  rw [hskip]
  rw [scanA_skip _ rest ?_]
  refine noAStart_append (by decide) ?_
  refine noAStart_of_no_lt ?_
  intro c hc
  rcases List.mem_append.mp hc with hc | hc
  · exact (cleanL_props hd3 c hc).2.1
  · simp at hc
    subst hc
    decide

theorem trimmed_dropWhile {d : List Char} (hd : pyStripL d = d) :
    d.dropWhile pyWs = d ∧ d.reverse.dropWhile pyWs = d.reverse := by
  have hBrev : ((d.dropWhile pyWs).reverse.dropWhile pyWs).reverse = d := hd
  have hBlen : ((d.dropWhile pyWs).reverse.dropWhile pyWs).length = d.length := by
    rw [← List.length_reverse ((d.dropWhile pyWs).reverse.dropWhile pyWs), hBrev]
  have hAlen : (d.dropWhile pyWs).length ≤ d.length := (List.dropWhile_sublist _).length_le
  have hBA : ((d.dropWhile pyWs).reverse.dropWhile pyWs).length ≤
      (d.dropWhile pyWs).length := by
    have := (List.dropWhile_sublist (l := (d.dropWhile pyWs).reverse) pyWs).length_le
    simpa using this
  have hA : d.dropWhile pyWs = d :=
    (List.dropWhile_suffix pyWs).eq_of_length (by omega)
  refine ⟨hA, ?_⟩
  have hB2 : ((d.dropWhile pyWs).reverse.dropWhile pyWs) = (d.dropWhile pyWs).reverse :=
    (List.dropWhile_suffix pyWs).eq_of_length (by rw [hBlen, hA]; simp)
  rw [hA] at hB2
  exact hB2

theorem pyStripL_append_ws {d w : List Char} (hd : pyStripL d = d) (hne : d ≠ [])
    (hw : ∀ c ∈ w, pyWs c = true) : pyStripL (d ++ w) = d := by
  obtain ⟨h1, h2⟩ := trimmed_dropWhile hd
  unfold pyStripL
  rw [List.dropWhile_append]
  rw [h1]
  rw [if_neg (by simpa using hne)]
  rw [List.reverse_append]
  rw [List.dropWhile_append_of_pos (by intro c hc; exact hw c (by simpa using hc))]
  rw [h2]
  simp

theorem wsLead_take {l : List Char} (k : Nat)
    (h : (l.takeWhile (fun c => c != '<')).all pyWs = true) :
    ((l.take k).takeWhile (fun c => c != '<')).all pyWs = true := by
  rw [← List.take_takeWhile]
  rw [List.all_eq_true] at h ⊢
  intro c hc
  exact h c (List.mem_of_mem_take hc)

theorem ddSearch_entry (desc rest : List Char)
    (hne : desc ≠ []) (htrim : pyStripL desc = desc) (hclean : cleanL desc = true)
    (hlen : desc.length ≤ 191)
    (hrest : (rest.takeWhile (fun c => c != '<')).all pyWs = true) :
    (match ddSearch (('\n' :: ([' ', ' ', ' ', ' ', '<', 'D', 'D', '>'] ++
        (desc ++ '\n' :: rest))).take 200) with
      | some cap => pyStripL cap
      | none => []) = desc := by
  have hW : ('\n' :: ([' ', ' ', ' ', ' ', '<', 'D', 'D', '>'] ++
      (desc ++ '\n' :: rest))).take 200 =
      '\n' :: [' ', ' ', ' ', ' ', '<', 'D', 'D', '>'] ++ ((desc ++ '\n' :: rest).take 191) := by
    have : ('\n' :: ([' ', ' ', ' ', ' ', '<', 'D', 'D', '>'] ++ (desc ++ '\n' :: rest))) =
        ('\n' :: [' ', ' ', ' ', ' ', '<', 'D', 'D', '>']) ++ (desc ++ '\n' :: rest) := by simp
    rw [this, List.take_append_eq_append_take]
    simp [List.take_of_length_le]
  rw [hW]
  have hZ : (desc ++ '\n' :: rest).take 191 = desc ++ ('\n' :: rest).take (191 - desc.length) := by
    rw [List.take_append_eq_append_take, List.take_of_length_le hlen]
  rw [hZ]
  have hdesc_lt : ∀ c ∈ desc, (c != '<') = true := by
    intro c hc
    simpa using (cleanL_props hclean c hc).2.1
  have hcap : ddSearch ('\n' :: [' ', ' ', ' ', ' ', '<', 'D', 'D', '>'] ++
      (desc ++ ('\n' :: rest).take (191 - desc.length))) =
      some (desc ++ (('\n' :: rest).take (191 - desc.length)).takeWhile (fun c => c != '<')) := by
    have hpre : ∀ Z : List Char, Z = desc ++ ('\n' :: rest).take (191 - desc.length) →
        ddSearch ('<' :: 'D' :: 'D' :: '>' :: Z) =
          some (Z.takeWhile (fun c => c != '<')) := by
      intro Z hZdef
      rw [ddSearch]
      rw [if_pos (by simp [List.isPrefixOf])]
      have hcapne : (Z.takeWhile (fun c => c != '<')).isEmpty = false := by
        rcases desc with _ | ⟨c0, d'⟩
        · exact absurd rfl hne
        · subst hZdef
          simp only [List.cons_append, List.takeWhile_cons]
          rw [hdesc_lt c0 (by simp)]
          simp
      simp only [List.drop]
      rw [hcapne]
      simp
    show ddSearch ('\n' :: (' ' :: ' ' :: ' ' :: ' ' :: '<' :: 'D' :: 'D' :: '>' ::
      (desc ++ ('\n' :: rest).take (191 - desc.length)))) = _
    rw [ddSearch]
    rw [if_neg (by simp [List.isPrefixOf])]
    rw [ddSearch]
    rw [if_neg (by simp [List.isPrefixOf])]
    rw [ddSearch]
    rw [if_neg (by simp [List.isPrefixOf])]
    rw [ddSearch]
    rw [if_neg (by simp [List.isPrefixOf])]
    rw [ddSearch]
    rw [if_neg (by simp [List.isPrefixOf])]
    rw [hpre _ rfl]
    rw [List.takeWhile_append_of_pos hdesc_lt]
  rw [hcap]
  refine pyStripL_append_ws htrim hne ?_
  have hws : (('\n' :: rest).takeWhile (fun c => c != '<')).all pyWs = true := by
    simp only [List.takeWhile_cons]
    rw [show (('\n' : Char) != '<') = true from by decide]
    simp only [if_true, List.all_cons]
    rw [show pyWs '\n' = true from by decide]
    simpa using hrest
  have hall := wsLead_take (l := '\n' :: rest) (191 - desc.length) hws
  rw [List.all_eq_true] at hall
  intro c hc
  exact hall c hc

theorem mkParsed_entry (now : Nat) (b : NItem) (rest : List Char) (hb : GoodItem b)
    (hrest : (rest.takeWhile (fun c => c != '<')).all pyWs = true) :
    mkParsed now ⟨b.url.data, natDecimal b.created, b.title.data,
      '\n' :: ([' ', ' ', ' ', ' ', '<', 'D', 'D', '>'] ++
        (b.description.data ++ '\n' :: rest))⟩ =
    ⟨b.title, b.url, b.description,
      if b.created ≤ maxPyTimestamp then b.created else now⟩ := by
  obtain ⟨ht1, ht2, ht3, hu1, hu2, hd1, hd2, hd3, hd4⟩ := hb
  unfold mkParsed
  simp only
  have htitle : (if (pyStripL b.title.data).isEmpty then ("Untitled" : String)
      else ⟨pyStripL b.title.data⟩) = b.title := by
    rw [ht2, if_neg (by simpa using ht1)]
  have hurl : ensureScheme ⟨b.url.data⟩ = b.url := by
    show ensureScheme b.url = b.url
    unfold ensureScheme
    rw [if_pos hu1]
  have hdesc : (⟨match ddSearch (('\n' :: ([' ', ' ', ' ', ' ', '<', 'D', 'D', '>'] ++
      (b.description.data ++ '\n' :: rest))).take 200) with
      | some cap => pyStripL cap
      | none => []⟩ : String) = b.description := by
    rw [ddSearch_entry b.description.data rest hd1 hd2 hd3 hd4 hrest]
  have hcreated : digitsVal (natDecimal b.created) = b.created := (natDecimal_spec b.created).2.2
  rw [htitle, hurl, hdesc, hcreated]

theorem wsLead_foot : (("</DL><p>".data).takeWhile (fun c => c != '<')).all pyWs = true := by
  decide

theorem wsLead_entry (x : NItem) (hdx : x.description ≠ "") (C : List Char) :
    (((nsEntry x).data ++ C).takeWhile (fun c => c != '<')).all pyWs = true := by
  rw [nsEntry_data x hdx]
  simp [List.takeWhile_cons, pyWs]

theorem scanA_entriesL (now : Nat) : ∀ items : List NItem, (∀ b ∈ items, GoodItem b) →
    (scanA (entriesL items ++ "</DL><p>".data)).map (mkParsed now) =
      items.map (fun b => (⟨b.title, b.url, b.description,
        if b.created ≤ maxPyTimestamp then b.created else now⟩ : NItem)) := by
  intro items
  induction items with
  | nil =>
    intro _
    show (scanA ([] ++ "</DL><p>".data)).map _ = []
    rw [List.nil_append]
    rw [show ("</DL><p>".data : List Char) = "</DL><p>".data ++ [] from by simp]
    rw [scanA_skip _ [] (by decide)]
    rfl
  | cons b items ih =>
    intro hall
    have hb := hall b (by simp)
    rw [show entriesL (b :: items) = (nsEntry b).data ++ entriesL items from rfl]
    rw [List.append_assoc]
    rw [scanA_entry_step b _ hb]
    rw [List.map_cons, List.map_cons]
    rw [ih (fun x hx => hall x (List.mem_cons_of_mem _ hx))]
    congr 1
    refine mkParsed_entry now b _ hb ?_
    cases items with
    | nil =>
      show ((entriesL [] ++ "</DL><p>".data).takeWhile (fun c => c != '<')).all pyWs = true
      rw [show entriesL [] ++ "</DL><p>".data = "</DL><p>".data from by
        rw [show entriesL [] = [] from rfl, List.nil_append]]
      exact wsLead_foot
    | cons x xs =>
      obtain ⟨-, -, -, -, -, hd1x, -, -, -⟩ := hall x (by simp)
      have hdx : x.description ≠ "" := fun hh => hd1x (by rw [hh])
      rw [show entriesL (x :: xs) = (nsEntry x).data ++ entriesL xs from rfl,
        List.append_assoc]
      exact wsLead_entry x hdx _

theorem foldl_append_data : ∀ (l : List String) (s : String),
    (l.foldl (fun r x => r ++ x) s).data = s.data ++ (l.map String.data).flatten := by
  intro l
  induction l with
  | nil => intro s; simp
  | cons x l ih =>
    intro s
    rw [List.foldl_cons, ih]
    simp [String.data_append]

theorem join_data (l : List String) : (String.join l).data = (l.map String.data).flatten := by
  show (l.foldl (fun r x => r ++ x) "").data = _
  rw [foldl_append_data]
  rfl

theorem entriesL_eq (items : List NItem) :
    ((items.map nsEntry).map String.data).flatten = entriesL items := by
  induction items with
  | nil => rfl
  | cons b items ih =>
    simp only [List.map_cons, List.flatten_cons, ih]
    rfl

/-! ### Claim C1: Netscape round trip -/

set_option maxRecDepth 100000 in
/-- C1, counterexample: the round-trip claim fails as stated.  For the single
bookmark with title `A&B`, the first serialization escapes the title to
`A&amp;B`; the parser performs no entity unescaping, so the reparsed title is
`A&amp;B` and the second serialization escapes it again to `A&amp;amp;B`.
Hence neither the parsed fields nor the second serialization agree with the
original. -/
theorem c1_counterexample :
    (parse_netscape_bookmarks (export_bookmarks_netscape
        [⟨"A&B", "https://example.com", "d", 100⟩]) 0).map
          (fun p => (p.title, p.url, p.description)) ≠
      [("A&B", "https://example.com", "d")] ∧
    export_bookmarks_netscape (parse_netscape_bookmarks (export_bookmarks_netscape
        [⟨"A&B", "https://example.com", "d", 100⟩]) 0) ≠
      export_bookmarks_netscape [⟨"A&B", "https://example.com", "d", 100⟩] := by
  constructor
  · decide
  · decide

set_option maxRecDepth 100000 in
/-- C1, amended: serializing to the Netscape dialect, parsing back, and
serializing again reproduces every bookmark's title, url and description
(`created` still round-trips at 1-second granularity) **provided** each
bookmark is round-trippable: title and description non-blank, trimmed and
free of the five escaped metacharacters, URL scheme-prefixed and
metacharacter-free, and description at most 191 characters (the parser's
lookahead window).  Each of these conditions is forced by a failure mode of
the codec (escaping without unescaping, the `([^<]+)` title group, the
`<DD>` lookahead, and the import-side `https://` prefixing). -/
theorem c1_round_trip (items : List NItem) (now : Nat) (h : ∀ b ∈ items, GoodItem b) :
    (parse_netscape_bookmarks (export_bookmarks_netscape items) now).map
      (fun p => (p.title, p.url, p.description)) =
    items.map (fun b => (b.title, b.url, b.description)) := by
  unfold parse_netscape_bookmarks export_bookmarks_netscape
  rw [String.data_append, String.data_append]
  rw [join_data, entriesL_eq]
  rw [List.append_assoc]
  rw [scanA_skip nsHeader.data _ (by decide)]
  rw [scanA_entriesL now items h]
  rw [List.map_map]
  rfl

/-- C1, witness: a concrete round-trippable bookmark goes through the cycle
unchanged. -/
theorem c1_round_trip_witness :
    (parse_netscape_bookmarks (export_bookmarks_netscape
        [⟨"Example", "https://example.com", "a desc", 100⟩]) 0).map
      (fun p => (p.title, p.url, p.description)) =
    [("Example", "https://example.com", "a desc")] :=
  c1_round_trip [⟨"Example", "https://example.com", "a desc", 100⟩] 0 (by decide)

/-! ### Store lemmas and claims C6, C7, C9, C10 -/

theorem setFirst_self {τ : Type} :
    ∀ (bs : List (Bookmark τ)) (bid : String) (b : Bookmark τ),
      bs.find? (fun x => x.id == bid) = some b → setFirst bs bid b = bs := by
  intro bs
  induction bs with
  | nil => intro bid b h; simp at h
  | cons x xs ih =>
    intro bid b h
    by_cases hx : x.id = bid
    · rw [List.find?_cons_of_pos _ (by simpa using hx)] at h
      cases h
      unfold setFirst
      rw [if_pos hx]
    · rw [List.find?_cons_of_neg _ (by simpa using hx)] at h
      unfold setFirst
      rw [if_neg hx, ih bid b h]

/-- C6: updating an existing bookmark with an empty field set succeeds,
returns the stored record with every field unchanged, and still persists the
(unchanged) collection — `save_bookmarks` is reached with the same list. -/
theorem c6_update_empty {τ : Type} (bs : List (Bookmark τ)) (bid : String) (b : Bookmark τ)
    (h : bs.find? (fun x => x.id == bid) = some b) :
    update_bookmark bs bid ⟨none, none, none, none, none⟩ =
      ⟨ApiResp.ok b, some bs⟩ := by
  unfold update_bookmark
  rw [h]
  have hb : applyFields (⟨none, none, none, none, none⟩ : ReqData τ) none b = b := rfl
  simp only [hb]
  rw [setFirst_self bs bid b h]

/-- C6, witness: an empty update request on a one-record collection. -/
theorem c6_update_empty_witness :
    update_bookmark [(⟨"1", "t", "https://e.com", "", ["x"], "Uncategorized", 0⟩ :
        Bookmark (List String))] "1" ⟨none, none, none, none, none⟩ =
      ⟨ApiResp.ok ⟨"1", "t", "https://e.com", "", ["x"], "Uncategorized", 0⟩,
        some [⟨"1", "t", "https://e.com", "", ["x"], "Uncategorized", 0⟩]⟩ :=
  c6_update_empty _ "1" _ (by decide)

/-- C7: delete always answers success, persists the collection filtered of
every record with the given id — in particular it removes a present record —
and leaves the collection exactly unchanged when the id is absent. -/
theorem c7_delete_idempotent {τ : Type} (bs : List (Bookmark τ)) (bid : String) :
    (delete_bookmark bs bid).resp = ApiResp.ok true ∧
    (delete_bookmark bs bid).saved = some (bs.filter (fun b => b.id != bid)) ∧
    (bid ∉ bookmarkIds bs → (delete_bookmark bs bid).saved = some bs) := by
  refine ⟨rfl, rfl, ?_⟩
  intro h
  show some (bs.filter fun b => b.id != bid) = some bs
  congr 1
  refine List.filter_eq_self.mpr ?_
  intro b hb
  simp only [bne_iff_ne]
  intro hEq
  exact h (hEq ▸ List.mem_map_of_mem (fun x => x.id) hb)

/-- C7, witness: deleting a missing id from a one-record collection returns
success and leaves the collection unchanged. -/
theorem c7_delete_idempotent_witness :
    (delete_bookmark [(⟨"1", "t", "https://e.com", "", [], "Uncategorized", 0⟩ :
        Bookmark (List String))] "z").resp = ApiResp.ok true ∧
    (delete_bookmark [(⟨"1", "t", "https://e.com", "", [], "Uncategorized", 0⟩ :
        Bookmark (List String))] "z").saved =
      some [⟨"1", "t", "https://e.com", "", [], "Uncategorized", 0⟩] := by
  refine ⟨(c7_delete_idempotent _ "z").1, (c7_delete_idempotent _ "z").2.2 ?_⟩
  decide

/-- C9: add and update are atomic with respect to errors — whenever either
handler answers an error (missing/blank URL, malformed URL, duplicate URL,
or unknown id are the only error responses), it returns before its
`save_bookmarks` call, so nothing is written. -/
theorem c9_error_atomicity {τ : Type} (emptyTags : τ) (bs : List (Bookmark τ))
    (data : ReqData τ) (newId : String) (now : Nat) (bid : String) :
    (∀ code msg, (add_bookmark emptyTags bs data newId now).resp = ApiResp.err code msg →
      (add_bookmark emptyTags bs data newId now).saved = none) ∧
    (∀ code msg, (update_bookmark bs bid data).resp = ApiResp.err code msg →
      (update_bookmark bs bid data).saved = none) := by
  constructor
  · intro code msg h
    by_cases h1 : pyStrip (data.url.getD "") = ""
    · simp [add_bookmark, h1]
    · by_cases h2 : urlNetloc (ensureScheme (pyStrip (data.url.getD ""))) = ""
      · simp [add_bookmark, h1, h2]
      · by_cases h3 : bs.any (fun b =>
            dedupKey b.url == dedupKey (ensureScheme (pyStrip (data.url.getD "")))) = true
        · simp [add_bookmark, h1, h2, h3]
        · simp [add_bookmark, h1, h2, h3] at h
  · intro code msg h
    cases hf : bs.find? (fun b => b.id == bid) with
    | none => simp [update_bookmark, hf]
    | some b =>
      cases hu : data.url with
      | none => simp [update_bookmark, hf, hu] at h
      | some u =>
        by_cases h1 : pyStrip u = ""
        · simp [update_bookmark, hf, hu, h1]
        · by_cases h2 : urlNetloc (ensureScheme (pyStrip u)) = ""
          · simp [update_bookmark, hf, hu, h1, h2]
          · by_cases h3 : bs.any (fun bb =>
                bb.id != bid && (dedupKey bb.url == dedupKey (ensureScheme (pyStrip u)))) = true
            · simp [update_bookmark, hf, hu, h1, h2, h3]
            · simp [update_bookmark, hf, hu, h1, h2, h3] at h

/-- C9, witness: a blank-URL add and an unknown-id update both answer an
error and write nothing. -/
theorem c9_error_atomicity_witness :
    (add_bookmark ([] : List String) [] ⟨none, some "   ", none, none, none⟩ "1" 0).saved
      = none ∧
    (update_bookmark ([] : List (Bookmark (List String))) "z"
      ⟨some "t", none, none, none, none⟩).saved = none := by
  constructor
  · exact (c9_error_atomicity [] [] ⟨none, some "   ", none, none, none⟩ "1" 0 "z").1
      400 "URL is required" (by decide)
  · exact (c9_error_atomicity ([] : List String) [] ⟨some "t", none, none, none, none⟩
      "1" 0 "z").2 404 "Bookmark not found" (by decide)

/-- Success-path characterization of `add_bookmark`: when the three
validation gates pass, the handler returns the freshly built record and
persists the collection with it appended. -/
theorem add_bookmark_ok {τ : Type} (emptyTags : τ) (bs : List (Bookmark τ))
    (data : ReqData τ) (newId : String) (now : Nat)
    (h1 : ¬ pyStrip (data.url.getD "") = "")
    (h2 : ¬ urlNetloc (ensureScheme (pyStrip (data.url.getD ""))) = "")
    (h3 : ¬ bs.any (fun b => dedupKey b.url ==
        dedupKey (ensureScheme (pyStrip (data.url.getD "")))) = true) :
    add_bookmark emptyTags bs data newId now =
      ⟨ApiResp.ok
        { id := newId
          title := pyStrip (data.title.getD "")
          url := ensureScheme (pyStrip (data.url.getD ""))
          description := pyStrip (data.description.getD "")
          tags := data.tags.getD emptyTags
          category := if pyStrip (data.category.getD "") = "" then "Uncategorized"
            else pyStrip (data.category.getD "")
          created := now },
        some (bs ++
          [{ id := newId
             title := pyStrip (data.title.getD "")
             url := ensureScheme (pyStrip (data.url.getD ""))
             description := pyStrip (data.description.getD "")
             tags := data.tags.getD emptyTags
             category := if pyStrip (data.category.getD "") = "" then "Uncategorized"
               else pyStrip (data.category.getD "")
             created := now }])⟩ := by
  unfold add_bookmark
  rw [if_neg h1, if_neg h2, if_neg h3]

/-- C10: when the request carries a `tags` key, the stored record's tags
value is the supplied value itself — no trimming, deduplication or
sequence-of-strings check happens.  The statement is parametric in the tags
type `τ`, reflecting that the handlers never inspect the value. -/
theorem c10_tags_passthrough {τ : Type} (v : τ) (emptyTags : τ) (bs : List (Bookmark τ))
    (data : ReqData τ) (newId : String) (now : Nat) (bid : String)
    (hv : data.tags = some v) :
    (∀ nb, (add_bookmark emptyTags bs data newId now).resp = ApiResp.ok nb →
      nb.tags = v ∧
        (add_bookmark emptyTags bs data newId now).saved = some (bs ++ [nb])) ∧
    (∀ ub, (update_bookmark bs bid data).resp = ApiResp.ok ub → ub.tags = v) := by
  constructor
  · intro nb h
    by_cases h1 : pyStrip (data.url.getD "") = ""
    · simp [add_bookmark, h1] at h
    · by_cases h2 : urlNetloc (ensureScheme (pyStrip (data.url.getD ""))) = ""
      · simp [add_bookmark, h1, h2] at h
      · by_cases h3 : bs.any (fun b =>
            dedupKey b.url == dedupKey (ensureScheme (pyStrip (data.url.getD "")))) = true
        · simp [add_bookmark, h1, h2, h3] at h
        · rw [add_bookmark_ok emptyTags bs data newId now h1 h2 h3] at h ⊢
          have h' : ApiResp.ok
              { id := newId
                title := pyStrip (data.title.getD "")
                url := ensureScheme (pyStrip (data.url.getD ""))
                description := pyStrip (data.description.getD "")
                tags := data.tags.getD emptyTags
                category := if pyStrip (data.category.getD "") = "" then "Uncategorized"
                  else pyStrip (data.category.getD "")
                created := now } = ApiResp.ok nb := h
          cases h'
          simp [hv]
  · intro ub h
    cases hf : bs.find? (fun b => b.id == bid) with
    | none => simp [update_bookmark, hf] at h
    | some b =>
      cases hu : data.url with
      | none =>
        simp only [update_bookmark, hf, hu] at h
        have h' : ApiResp.ok (applyFields data none b) = ApiResp.ok ub := h
        cases h'
        simp [applyFields, hv]
      | some u =>
        by_cases h1 : pyStrip u = ""
        · simp [update_bookmark, hf, hu, h1] at h
        · by_cases h2 : urlNetloc (ensureScheme (pyStrip u)) = ""
          · simp [update_bookmark, hf, hu, h1, h2] at h
          · by_cases h3 : bs.any (fun bb =>
                bb.id != bid && (dedupKey bb.url == dedupKey (ensureScheme (pyStrip u)))) = true
            · simp [update_bookmark, hf, hu, h1, h2, h3] at h
            · simp only [update_bookmark, hf, hu] at h
              rw [if_neg h1, if_neg h2, if_neg h3] at h
              have h' : ApiResp.ok (applyFields data
                  (some (ensureScheme (pyStrip u))) b) = ApiResp.ok ub := h
              cases h'
              simp [applyFields, hv]

/-- C10, witness: with the tags type instantiated to `Nat` — not a list of
strings at all — an add request carrying `tags := 42` stores `42` verbatim,
and an update carrying `tags := 7` stores `7`. -/
theorem c10_tags_passthrough_witness :
    (∀ nb, (add_bookmark (0 : Nat) [] ⟨none, some "e.com", none, some 42, none⟩
        "1" 5).resp = ApiResp.ok nb →
      nb.tags = 42 ∧
        (add_bookmark (0 : Nat) [] ⟨none, some "e.com", none, some 42, none⟩
          "1" 5).saved = some ([] ++ [nb])) ∧
    (∀ ub, (update_bookmark [(⟨"1", "t", "https://e.com", "", 0, "Uncategorized", 0⟩ :
        Bookmark Nat)] "1" ⟨none, none, none, some 7, none⟩).resp = ApiResp.ok ub →
      ub.tags = 7) :=
  c10_tags_passthrough 42 0 [] ⟨none, some "e.com", none, some 42, none⟩ "1" 5 "1" rfl
    |>.1 |> fun h => ⟨h,
      (c10_tags_passthrough 7 0 _ ⟨none, none, none, some 7, none⟩ "x" 0 "1" rfl).2⟩

/-! ### Claim C4: category listing -/

/-- C4, counterexample: a record whose `category` key is present but blank is
not counted as `Uncategorized` — the `if category:` truthiness test drops
the empty string, so `get_categories` returns the empty list instead of
`["Uncategorized"]`. -/
theorem c4_counterexample :
    get_categories [some ""] = [] ∧ "Uncategorized" ∉ get_categories [some ""] := by
  have h : get_categories [some ""] = [] := by
    unfold get_categories
    simp
  exact ⟨h, by rw [h]; simp⟩

/-- C4, amended: `get_categories` returns a sorted sequence without
duplicates whose members are exactly the non-blank stored category values,
with `"Uncategorized"` standing in for records whose category key is
**absent**; records with a present-but-blank category are omitted entirely
rather than defaulted. -/
theorem c4_categories (cats : List (Option String)) :
    List.Sorted (· ≤ ·) (get_categories cats) ∧
    (get_categories cats).Nodup ∧
    ∀ x : String, x ∈ get_categories cats ↔
      (x ≠ "" ∧ (some x ∈ cats ∨ (x = "Uncategorized" ∧ none ∈ cats))) := by
  refine ⟨?_, ?_, ?_⟩
  · exact List.sorted_mergeSort' _
  · have hperm := List.mergeSort_perm
      ((((cats.map (fun c => c.getD "Uncategorized")).filter (fun c => c != "")).dedup))
      (fun a b => a ≤ b)
    exact hperm.nodup_iff.mpr (List.nodup_dedup _)
  · intro x
    unfold get_categories
    rw [List.mem_mergeSort, List.mem_dedup, List.mem_filter]
    constructor
    · rintro ⟨hmem, hne⟩
      obtain ⟨c, hc, hcx⟩ := List.mem_map.mp hmem
      refine ⟨by simpa using hne, ?_⟩
      cases c with
      | none => exact Or.inr ⟨by rw [← hcx]; rfl, hc⟩
      | some y =>
        left
        have : y = x := by simpa using hcx
        rwa [this] at hc
    · rintro ⟨hne, hsome | ⟨hx, hnone⟩⟩
      · refine ⟨List.mem_map.mpr ⟨some x, hsome, rfl⟩, by simpa using hne⟩
      · subst hx
        exact ⟨List.mem_map.mpr ⟨none, hnone, rfl⟩, by simp⟩

/-! ### Claim C5: import orchestration -/

theorem importLoop_spec {τ : Type} (emptyTags : τ) (idGen : Nat → String) :
    ∀ (parsed : List NItem) (bs : List (Bookmark τ)) (existing : List String) (n k : Nat),
      ((importLoop emptyTags idGen parsed bs existing n k).2.1 +
        (importLoop emptyTags idGen parsed bs existing n k).2.2 =
        n + k + parsed.length) ∧
      ∃ newOnes, (importLoop emptyTags idGen parsed bs existing n k).1 = bs ++ newOnes ∧
        newOnes.length + n = (importLoop emptyTags idGen parsed bs existing n k).2.1 := by
  intro parsed
  induction parsed with
  | nil =>
    intro bs existing n k
    exact ⟨by simp [importLoop], ⟨[], by simp [importLoop], by simp [importLoop]⟩⟩
  | cons p rest ih =>
    intro bs existing n k
    by_cases hk : existing.contains (dedupKey p.url) = true
    · have hred : importLoop emptyTags idGen (p :: rest) bs existing n k =
          importLoop emptyTags idGen rest bs existing n (k + 1) := by
        simp only [importLoop, hk, if_true]
      rw [hred]
      obtain ⟨hcount, newOnes, hno, hlen⟩ := ih bs existing n (k + 1)
      refine ⟨by simp only [List.length_cons]; omega, newOnes, hno, hlen⟩
    · have hred : importLoop emptyTags idGen (p :: rest) bs existing n k =
          importLoop emptyTags idGen rest
            (bs ++ [mkImported emptyTags p (idGen n)])
            (dedupKey p.url :: existing) (n + 1) k := by
        simp only [importLoop, hk, Bool.false_eq_true, if_false]
      rw [hred]
      obtain ⟨hcount, newOnes, hno, hlen⟩ := ih (bs ++ [mkImported emptyTags p (idGen n)])
        (dedupKey p.url :: existing) (n + 1) k
      refine ⟨by simp only [List.length_cons]; omega,
        mkImported emptyTags p (idGen n) :: newOnes, ?_, ?_⟩
      · rw [hno, List.append_assoc]
        rfl
      · simp only [List.length_cons]
        omega

/-- C5: importing a Netscape file whose two anchors both normalize to the
URL of an existing bookmark yields `{imported: 0, skipped: 2, total: 2}` and
persists the collection unchanged; and in general a successful import
reports `imported + skipped = total` and persists exactly the original
collection with the non-skipped parsed bookmarks appended (`imported` of
them). -/
theorem c5_import_dedup :
    (import_bookmarks ([] : List String)
        "<DT><A HREF=\"https://EXAMPLE.com\" ADD_DATE=\"100\">One</A>\n<DT><A HREF=\"https://example.com/\" ADD_DATE=\"200\">Two</A>\n"
        [⟨"1", "Example", "https://example.com", "", [], "Uncategorized", 0⟩]
        (fun k => ⟨natDecimal k⟩) 0 =
      ⟨ApiResp.ok ⟨0, 2, 2⟩,
        some [⟨"1", "Example", "https://example.com", "", [], "Uncategorized", 0⟩]⟩) ∧
    (∀ (τ : Type) (emptyTags : τ) (content : String) (bs : List (Bookmark τ))
        (idGen : Nat → String) (now : Nat) (stats : ImportStats),
      (import_bookmarks emptyTags content bs idGen now).resp = ApiResp.ok stats →
      stats.imported + stats.skipped = stats.total ∧
      ∃ newOnes, (import_bookmarks emptyTags content bs idGen now).saved =
          some (bs ++ newOnes) ∧ newOnes.length = stats.imported) := by
  constructor
  · decide
  · intro τ emptyTags content bs idGen now stats h
    by_cases hp : (parse_netscape_bookmarks content now).isEmpty = true
    · simp [import_bookmarks, hp] at h
    · have hun : import_bookmarks emptyTags content bs idGen now =
          ⟨ApiResp.ok
            ⟨(importLoop emptyTags idGen (parse_netscape_bookmarks content now) bs
                (bs.map (fun b => dedupKey b.url)) 0 0).2.1,
              (importLoop emptyTags idGen (parse_netscape_bookmarks content now) bs
                (bs.map (fun b => dedupKey b.url)) 0 0).2.2,
              (parse_netscape_bookmarks content now).length⟩,
            some (importLoop emptyTags idGen (parse_netscape_bookmarks content now) bs
              (bs.map (fun b => dedupKey b.url)) 0 0).1⟩ := by
        unfold import_bookmarks
        rw [if_neg hp]
      rw [hun] at h ⊢
      have h' : ApiResp.ok
          (⟨(importLoop emptyTags idGen (parse_netscape_bookmarks content now) bs
              (bs.map (fun b => dedupKey b.url)) 0 0).2.1,
            (importLoop emptyTags idGen (parse_netscape_bookmarks content now) bs
              (bs.map (fun b => dedupKey b.url)) 0 0).2.2,
            (parse_netscape_bookmarks content now).length⟩ : ImportStats) =
          ApiResp.ok stats := h
      cases h'
      obtain ⟨hcount, newOnes, hno, hlen⟩ := importLoop_spec emptyTags idGen
        (parse_netscape_bookmarks content now) bs
        (bs.map (fun b => dedupKey b.url)) 0 0
      refine ⟨by simpa using hcount, newOnes, ?_, by simpa using hlen⟩
      show some ((importLoop emptyTags idGen (parse_netscape_bookmarks content now) bs
        (bs.map (fun b => dedupKey b.url)) 0 0).1) = some (bs ++ newOnes)
      rw [hno]

/-! ### Claim C3: URL normalization and duplicate detection -/

theorem toLower_shift (c : Char) :
    Char.toLower c = c ∨
      ((Char.toLower c).toNat = c.toNat + 32 ∧ 65 ≤ c.toNat ∧ c.toNat ≤ 90) := by
  by_cases h : c.toNat ≥ 65 ∧ c.toNat ≤ 90
  · right
    refine ⟨?_, h.1, h.2⟩
    have hv : (c.toNat + 32).isValidChar := Or.inl (by omega)
    have hstep : Char.toLower c = Char.ofNat (c.toNat + 32) := by
      unfold Char.toLower
      simp [h]
    rw [hstep, Char.ofNat, dif_pos hv]
    simp [Char.ofNatAux, Char.toNat, UInt32.toNat, BitVec.toNat_ofNatLt]
  · left
    unfold Char.toLower
    simp [h]

theorem toLower_eq_low {c d : Char} (hd1 : ¬ (97 ≤ d.toNat ∧ d.toNat ≤ 122))
    (hd2 : ¬ (65 ≤ d.toNat ∧ d.toNat ≤ 90)) : Char.toLower c = d ↔ c = d := by
  constructor
  · intro h
    rcases toLower_shift c with hc | ⟨hc, hlo, hhi⟩
    · rwa [hc] at h
    · rw [h] at hc
      exact absurd ⟨by omega, by omega⟩ hd1
  · intro h
    subst h
    rcases toLower_shift c with hc | ⟨_, hlo, hhi⟩
    · exact hc
    · exact absurd ⟨hlo, hhi⟩ hd2

theorem urlDelim_cases {c : Char} (h : urlDelim c = true) :
    c = '/' ∨ c = '?' ∨ c = '#' := by
  simp only [urlDelim, Bool.or_eq_true, beq_iff_eq] at h
  tauto

theorem rstripSlashL_cons_ne {c : Char} (t : List Char) (hc : c ≠ '/') :
    rstripSlashL (c :: t) = c :: rstripSlashL t := by
  unfold rstripSlashL
  rw [show (c :: t).reverse = t.reverse ++ [c] from by simp]
  rw [List.dropWhile_append]
  split
  · rename_i hE
    have ht : t.reverse.dropWhile (fun x => x == '/') = [] := by
      simpa using hE
    rw [ht]
    simp [List.dropWhile_cons, hc]
  · simp

theorem rstripSlashL_cons_of_ne_nil {c : Char} (t : List Char)
    (h : rstripSlashL (c :: t) ≠ []) :
    rstripSlashL (c :: t) = c :: rstripSlashL t := by
  by_cases hc : c = '/'
  · subst hc
    by_cases ht : t.reverse.dropWhile (fun x => x == '/') = []
    · exfalso
      apply h
      unfold rstripSlashL
      rw [show (('/' : Char) :: t).reverse = t.reverse ++ ['/'] from by simp,
        List.dropWhile_append]
      rw [if_pos (by simpa using ht)]
      simp [List.dropWhile_cons]
    · unfold rstripSlashL
      rw [show (('/' : Char) :: t).reverse = t.reverse ++ ['/'] from by simp,
        List.dropWhile_append]
      rw [if_neg (by simpa using ht)]
      simp
  · exact rstripSlashL_cons_ne t hc

theorem rstripSlashL_append_ne_nil {X Y : List Char} (h : rstripSlashL Y ≠ []) :
    rstripSlashL (X ++ Y) = X ++ rstripSlashL Y := by
  unfold rstripSlashL at h ⊢
  rw [List.reverse_append, List.dropWhile_append]
  split
  · rename_i hE
    exact absurd (by simpa using hE) (by simpa using h)
  · simp

theorem rstripSlashL_append_nil {X Y : List Char} (h : rstripSlashL Y = []) :
    rstripSlashL (X ++ Y) = rstripSlashL X := by
  unfold rstripSlashL at h ⊢
  rw [List.reverse_append, List.dropWhile_append]
  split
  · rfl
  · rename_i hE
    exact absurd (by simpa using h) hE

theorem schemed_split {l : List Char} (h : httpPrefixed l = true) :
    (l = "http://".data ++ afterSchemeL l ∧ "http://".data.isPrefixOf l = true) ∨
    (l = "https://".data ++ afterSchemeL l ∧ "http://".data.isPrefixOf l = false) := by
  by_cases h7 : "http://".data.isPrefixOf l = true
  · left
    refine ⟨?_, h7⟩
    have hp : "http://".data <+: l := List.isPrefixOf_iff_prefix.mp h7
    have := List.prefix_iff_eq_append.mp hp
    unfold afterSchemeL
    rw [if_pos h7]
    exact this.symm
  · right
    have h8 : "https://".data.isPrefixOf l = true := by
      unfold httpPrefixed at h
      rcases Bool.or_eq_true _ _ |>.mp h with h' | h'
      · exact absurd h' h7
      · exact h'
    refine ⟨?_, Bool.eq_false_iff.mpr h7⟩
    have hp : "https://".data <+: l := List.isPrefixOf_iff_prefix.mp h8
    have := List.prefix_iff_eq_append.mp hp
    unfold afterSchemeL
    rw [if_neg h7]
    exact this.symm

theorem urlNetloc_ne_empty_iff (u : String) :
    urlNetloc u ≠ "" ↔
      ∃ c t, afterSchemeL u.data = c :: t ∧ urlDelim c = false := by
  unfold urlNetloc
  constructor
  · intro h
    cases hr : afterSchemeL u.data with
    | nil =>
      exfalso
      apply h
      rw [show ("" : String) = ⟨[]⟩ from rfl]
      rw [hr]
      rfl
    | cons c t =>
      by_cases hd : urlDelim c = true
      · exfalso
        apply h
        rw [show ("" : String) = ⟨[]⟩ from rfl, hr]
        simp [List.takeWhile_cons, hd]
      · exact ⟨c, t, rfl, by simpa using hd⟩
  · rintro ⟨c, t, hr, hd⟩ hcon
    rw [hr] at hcon
    have : (List.takeWhile (fun c => !urlDelim c) (c :: t)) = [] := by
      have := congrArg String.data hcon
      simpa using this
    rw [List.takeWhile_cons, hd] at this
    simp at this

theorem dedupKeyL_schemed {P r : List Char} {c : Char} {t : List Char}
    (hr : r = c :: t) (hc : urlDelim c = false) :
    dedupKeyL (P ++ r) = pyLowerL P ++ Char.toLower c :: pyLowerL (rstripSlashL t) := by
  subst hr
  have hc' : c ≠ '/' := by
    intro hh
    rw [hh] at hc
    simp [urlDelim] at hc
  unfold dedupKeyL
  rw [rstripSlashL_append_ne_nil (by rw [rstripSlashL_cons_ne t hc']; simp)]
  rw [rstripSlashL_cons_ne t hc']
  simp [pyLowerL]

theorem key_len_contra {P : List Char} (hP : P = "http://".data ∨ P = "https://".data)
    {K : List Char} (hK : K = "http:".data ∨ K = "https:".data)
    {c : Char} {Z : List Char} (heq : K = pyLowerL P ++ c :: Z) : False := by
  have hlen := congrArg List.length heq
  simp only [List.length_append, List.length_cons, pyLowerL, List.length_map] at hlen
  rcases hP with hP | hP <;> rcases hK with hK | hK <;> subst hP <;> subst hK <;>
    simp at hlen <;> omega

theorem key_head_contra {P1 P2 : List Char}
    (hP1 : P1 = "http://".data ∨ P1 = "https://".data)
    (hP2 : P2 = "http://".data ∨ P2 = "https://".data)
    {x y : Char} {X Y : List Char}
    (heq : pyLowerL P2 ++ y :: Y = pyLowerL P1 ++ x :: X) (hxy : x ≠ y) : False := by
  have l7 : pyLowerL "http://".data = "http://".data := by decide
  have l8 : pyLowerL "https://".data = "https://".data := by decide
  rcases hP1 with hP1 | hP1 <;> rcases hP2 with hP2 | hP2 <;> subst hP1 <;> subst hP2 <;>
    simp only [l7, l8] at heq
  · have := List.append_cancel_left heq
    cases this
    exact hxy rfl
  · have h6 := congrArg (List.take 6) heq
    rw [List.take_append_eq_append_take, List.take_append_eq_append_take] at h6
    simp at h6
  · have h6 := congrArg (List.take 6) heq
    rw [List.take_append_eq_append_take, List.take_append_eq_append_take] at h6
    simp at h6
  · have := List.append_cancel_left heq
    cases this
    exact hxy rfl

theorem key_valid {u1 u2 : String}
    (h1p : httpPrefixed u1.data = true) (h2p : httpPrefixed u2.data = true)
    (h1n : urlNetloc u1 ≠ "") (hk : dedupKey u2 = dedupKey u1) :
    urlNetloc u2 ≠ "" := by
  obtain ⟨c1, t1, hr1, hd1⟩ := (urlNetloc_ne_empty_iff u1).mp h1n
  obtain ⟨P1, hP1mem, hu1⟩ :
      ∃ P, (P = "http://".data ∨ P = "https://".data) ∧
        u1.data = P ++ afterSchemeL u1.data := by
    rcases schemed_split h1p with ⟨h, _⟩ | ⟨h, _⟩
    · exact ⟨_, Or.inl rfl, h⟩
    · exact ⟨_, Or.inr rfl, h⟩
  obtain ⟨P2, hP2mem, hu2⟩ :
      ∃ P, (P = "http://".data ∨ P = "https://".data) ∧
        u2.data = P ++ afterSchemeL u2.data := by
    rcases schemed_split h2p with ⟨h, _⟩ | ⟨h, _⟩
    · exact ⟨_, Or.inl rfl, h⟩
    · exact ⟨_, Or.inr rfl, h⟩
  have hkl : dedupKeyL u2.data = dedupKeyL u1.data := congrArg String.data hk
  have hk1 : dedupKeyL u1.data =
      pyLowerL P1 ++ Char.toLower c1 :: pyLowerL (rstripSlashL t1) := by
    rw [hu1, hr1]
    exact dedupKeyL_schemed rfl hd1
  have hstrip : dedupKeyL P2 = "http:".data ∨ dedupKeyL P2 = "https:".data := by
    rcases hP2mem with h | h <;> subst h
    · left; decide
    · right; decide
  have hc1d : ∀ d, urlDelim d = true → Char.toLower c1 ≠ d := by
    intro d hdeld hcon
    rcases urlDelim_cases hdeld with h | h | h <;> subst h
    · have : c1 = '/' := (toLower_eq_low (by decide) (by decide)).mp hcon
      rw [this] at hd1
      simp [urlDelim] at hd1
    · have : c1 = '?' := (toLower_eq_low (by decide) (by decide)).mp hcon
      rw [this] at hd1
      simp [urlDelim] at hd1
    · have : c1 = '#' := (toLower_eq_low (by decide) (by decide)).mp hcon
      rw [this] at hd1
      simp [urlDelim] at hd1
  intro hcon
  cases hr2 : afterSchemeL u2.data with
  | nil =>
    rw [hu2, hr2, List.append_nil, hk1] at hkl
    exact key_len_contra hP1mem hstrip hkl
  | cons c2 t2 =>
    have hd2 : urlDelim c2 = true := by
      by_contra hd2'
      exact (urlNetloc_ne_empty_iff u2).mpr
        ⟨c2, t2, hr2, Bool.eq_false_iff.mpr hd2'⟩ hcon
    rw [hu2, hr2, hk1] at hkl
    by_cases hz : rstripSlashL (c2 :: t2) = []
    · have h2e : dedupKeyL (P2 ++ c2 :: t2) = dedupKeyL P2 := by
        unfold dedupKeyL
        rw [rstripSlashL_append_nil hz]
      rw [h2e] at hkl
      exact key_len_contra hP1mem hstrip hkl
    · have h2e : dedupKeyL (P2 ++ c2 :: t2) =
          pyLowerL P2 ++ Char.toLower c2 :: pyLowerL (rstripSlashL t2) := by
        unfold dedupKeyL
        rw [rstripSlashL_append_ne_nil hz, rstripSlashL_cons_of_ne_nil t2 hz]
        simp [pyLowerL]
      rw [h2e] at hkl
      exact key_head_contra hP1mem hP2mem hkl
        (fun he => hc1d (Char.toLower c2) (by
          rcases urlDelim_cases hd2 with h | h | h <;> subst h <;> decide) he)

theorem ensureScheme_prefixed (s : String) :
    httpPrefixed (ensureScheme s).data = true := by
  unfold ensureScheme
  by_cases h : httpPrefixed s.data = true
  · rw [if_pos h]
    exact h
  · rw [if_neg h]
    unfold httpPrefixed
    apply Bool.or_eq_true _ _ |>.mpr
    right
    apply List.isPrefixOf_iff_prefix.mpr
    exact ⟨s.data, rfl⟩

theorem add_bookmark_ok_inv {τ : Type} {emptyTags : τ} {bs : List (Bookmark τ)}
    {data : ReqData τ} {newId : String} {now : Nat} {b1 : Bookmark τ}
    {bs1 : List (Bookmark τ)}
    (h : add_bookmark emptyTags bs data newId now = ⟨ApiResp.ok b1, some bs1⟩) :
    b1.url = ensureScheme (pyStrip (data.url.getD "")) ∧
    pyStrip (data.url.getD "") ≠ "" ∧
    urlNetloc (ensureScheme (pyStrip (data.url.getD ""))) ≠ "" ∧
    bs1 = bs ++ [b1] := by
  unfold add_bookmark at h
  by_cases h1 : pyStrip (data.url.getD "") = ""
  · rw [if_pos h1] at h
    have := congrArg MutResult.resp h
    simp at this
  · rw [if_neg h1] at h
    by_cases h2 : urlNetloc (ensureScheme (pyStrip (data.url.getD ""))) = ""
    · rw [if_pos h2] at h
      have := congrArg MutResult.resp h
      simp at this
    · rw [if_neg h2] at h
      by_cases h3 : bs.any (fun b => dedupKey b.url ==
          dedupKey (ensureScheme (pyStrip (data.url.getD "")))) = true
      · rw [if_pos h3] at h
        have := congrArg MutResult.resp h
        simp at this
      · rw [if_neg h3] at h
        have hresp := congrArg MutResult.resp h
        have hsav := congrArg MutResult.saved h
        simp only [MutResult.resp, MutResult.saved] at hresp hsav
        have hb : b1 =
            { id := newId,
              title := pyStrip (data.title.getD ""),
              url := ensureScheme (pyStrip (data.url.getD "")),
              description := pyStrip (data.description.getD ""),
              tags := data.tags.getD emptyTags,
              category := if pyStrip (data.category.getD "") = "" then "Uncategorized"
                else pyStrip (data.category.getD ""),
              created := now } := by
          cases hresp
          rfl
        have hs : bs1 = bs ++ [b1] := by
          rw [hb]
          cases hsav
          rfl
        exact ⟨by rw [hb], h1, h2, hs⟩

/-- C3: after a successful add, a second add whose URL has the same
normalized dedup key (`url.lower().rstrip('/')` after scheme completion) —
in particular any URL differing only by scheme-prefix presence, trailing
slash, or letter case — fails with 409 `A bookmark with this URL already
exists` and nothing is persisted. -/
theorem c3_duplicate_url {τ : Type} (emptyTags : τ) (bs bs1 : List (Bookmark τ))
    (d1 d2 : ReqData τ) (id1 id2 : String) (t1 t2 : Nat) (b1 : Bookmark τ)
    (h1 : add_bookmark emptyTags bs d1 id1 t1 = ⟨ApiResp.ok b1, some bs1⟩)
    (hk : dedupKey (ensureScheme (pyStrip (d2.url.getD ""))) =
          dedupKey (ensureScheme (pyStrip (d1.url.getD "")))) :
    add_bookmark emptyTags bs1 d2 id2 t2 =
      ⟨ApiResp.err 409 "A bookmark with this URL already exists", none⟩ := by
  obtain ⟨hburl, h1ne, h1net, hbs1⟩ := add_bookmark_ok_inv h1
  have h2net : urlNetloc (ensureScheme (pyStrip (d2.url.getD ""))) ≠ "" :=
    key_valid (ensureScheme_prefixed _) (ensureScheme_prefixed _) h1net hk
  have h2ne : ¬ pyStrip (d2.url.getD "") = "" := by
    intro he
    rw [he] at h2net
    exact h2net (by decide)
  have hdup : bs1.any (fun b => dedupKey b.url ==
      dedupKey (ensureScheme (pyStrip (d2.url.getD "")))) = true := by
    rw [hbs1]
    apply List.any_eq_true.mpr
    refine ⟨b1, by simp, ?_⟩
    rw [hburl]
    exact beq_iff_eq.mpr hk.symm
  unfold add_bookmark
  rw [if_neg h2ne, if_neg h2net, if_pos hdup]

theorem c3_duplicate_url_witness :
    add_bookmark () [⟨"1", "", "https://Example.com", "", (), "Uncategorized", 0⟩]
        ⟨none, some "example.com/", none, none, none⟩ "2" 5 =
      ⟨ApiResp.err 409 "A bookmark with this URL already exists", none⟩ :=
  c3_duplicate_url () [] [⟨"1", "", "https://Example.com", "", (), "Uncategorized", 0⟩]
    ⟨none, some "Example.com", none, none, none⟩
    ⟨none, some "example.com/", none, none, none⟩ "1" "2" 0 5
    ⟨"1", "", "https://Example.com", "", (), "Uncategorized", 0⟩
    (by decide) (by decide)

theorem c5_import_dedup_witness :
    (0 : Nat) + 2 = 2 ∧
    ∃ newOnes, (import_bookmarks ([] : List String)
        "<DT><A HREF=\"https://EXAMPLE.com\" ADD_DATE=\"100\">One</A>\n<DT><A HREF=\"https://example.com/\" ADD_DATE=\"200\">Two</A>\n"
        [⟨"1", "Example", "https://example.com", "", [], "Uncategorized", 0⟩]
        (fun k => ⟨natDecimal k⟩) 0).saved =
      some ([⟨"1", "Example", "https://example.com", "", [], "Uncategorized", 0⟩]
        ++ newOnes) ∧ newOnes.length = 0 :=
  c5_import_dedup.2 (List String) []
    "<DT><A HREF=\"https://EXAMPLE.com\" ADD_DATE=\"100\">One</A>\n<DT><A HREF=\"https://example.com/\" ADD_DATE=\"200\">Two</A>\n"
    [⟨"1", "Example", "https://example.com", "", [], "Uncategorized", 0⟩]
    (fun k => ⟨natDecimal k⟩) 0 ⟨0, 2, 2⟩ (by decide)

/-! ### Claim C8: id uniqueness across operation sequences -/

theorem bookmarkIds_append {τ : Type} (bs cs : List (Bookmark τ)) :
    bookmarkIds (bs ++ cs) = bookmarkIds bs ++ bookmarkIds cs := by
  unfold bookmarkIds
  exact List.map_append _ bs cs

theorem setFirst_ids {τ : Type} (bid : String) (b : Bookmark τ) (hb : b.id = bid) :
    ∀ bs : List (Bookmark τ), bookmarkIds (setFirst bs bid b) = bookmarkIds bs := by
  intro bs
  induction bs with
  | nil => rfl
  | cons x xs ih =>
    unfold setFirst
    by_cases hx : x.id = bid
    · rw [if_pos hx]
      unfold bookmarkIds
      simp only [List.map_cons]
      rw [show b.id = x.id from hb.trans hx.symm]
    · rw [if_neg hx]
      unfold bookmarkIds at ih ⊢
      simp only [List.map_cons, ih]

theorem add_saved {τ : Type} (emptyTags : τ) (bs : List (Bookmark τ))
    (data : ReqData τ) (newId : String) (now : Nat) :
    (add_bookmark emptyTags bs data newId now).saved = none ∨
    ∃ nb : Bookmark τ, nb.id = newId ∧
      (add_bookmark emptyTags bs data newId now).saved = some (bs ++ [nb]) := by
  unfold add_bookmark
  by_cases h1 : pyStrip (data.url.getD "") = ""
  · rw [if_pos h1]
    left
    rfl
  · rw [if_neg h1]
    by_cases h2 : urlNetloc (ensureScheme (pyStrip (data.url.getD ""))) = ""
    · rw [if_pos h2]
      left
      rfl
    · rw [if_neg h2]
      by_cases h3 : (bs.any fun b => dedupKey b.url ==
          dedupKey (ensureScheme (pyStrip (data.url.getD "")))) = true
      · rw [if_pos h3]
        left
        rfl
      · rw [if_neg h3]
        right
        exact ⟨_, rfl, rfl⟩

theorem update_saved {τ : Type} (bs : List (Bookmark τ)) (bid : String)
    (data : ReqData τ) :
    (update_bookmark bs bid data).saved = none ∨
    ∃ b' : Bookmark τ, b'.id = bid ∧
      (update_bookmark bs bid data).saved = some (setFirst bs bid b') := by
  cases hf : bs.find? (fun b => b.id == bid) with
  | none =>
    left
    simp only [update_bookmark, hf]
  | some b =>
    have hbid : b.id = bid := by
      have := List.find?_some hf
      simpa using this
    cases hu : data.url with
    | none =>
      right
      refine ⟨applyFields data none b, hbid, ?_⟩
      simp only [update_bookmark, hf, hu]
    | some u =>
      by_cases h1 : pyStrip u = ""
      · left
        simp only [update_bookmark, hf, hu]
        rw [if_pos h1]
      · by_cases h2 : urlNetloc (ensureScheme (pyStrip u)) = ""
        · left
          simp only [update_bookmark, hf, hu]
          rw [if_neg h1, if_pos h2]
        · by_cases h3 : (bs.any fun bb => bb.id != bid &&
              (dedupKey bb.url == dedupKey (ensureScheme (pyStrip u)))) = true
          · left
            simp only [update_bookmark, hf, hu]
            rw [if_neg h1, if_neg h2, if_pos h3]
          · right
            refine ⟨applyFields data (some (ensureScheme (pyStrip u))) b, hbid, ?_⟩
            simp only [update_bookmark, hf, hu]
            rw [if_neg h1, if_neg h2, if_neg h3]

theorem ids_filter_sublist {τ : Type} (bs : List (Bookmark τ)) (p : Bookmark τ → Bool) :
    (bookmarkIds (bs.filter p)).Sublist (bookmarkIds bs) := by
  unfold bookmarkIds
  exact (List.filter_sublist bs).map _

theorem importLoop_ids {τ : Type} (emptyTags : τ) (idGen : Nat → String)
    (hinj : Function.Injective idGen) :
    ∀ (items : List NItem) (bs : List (Bookmark τ)) (existing : List String)
      (newCount skipped : Nat),
      (∀ k, newCount ≤ k → idGen k ∉ bookmarkIds bs) →
      (bookmarkIds bs).Nodup →
      (bookmarkIds (importLoop emptyTags idGen items bs existing
        newCount skipped).1).Nodup := by
  intro items
  induction items with
  | nil =>
    intro bs existing newCount skipped hfresh hnd
    exact hnd
  | cons p rest ih =>
    intro bs existing newCount skipped hfresh hnd
    by_cases hk : existing.contains (dedupKey p.url) = true
    · simp only [importLoop, hk, if_true]
      exact ih bs _ _ _ hfresh hnd
    · simp only [importLoop, hk, Bool.false_eq_true, if_false]
      apply ih
      · intro k hkge
        rw [bookmarkIds_append]
        intro hmem
        rcases List.mem_append.mp hmem with hm | hm
        · exact hfresh k (Nat.le_of_succ_le hkge) hm
        · have heq : idGen k = idGen newCount := by
            simpa [bookmarkIds, mkImported] using hm
          have := hinj heq
          omega
      · rw [bookmarkIds_append]
        refine List.Nodup.append hnd (by simp [bookmarkIds]) ?_
        intro a ha hb
        have hb' : a = idGen newCount := by
          simpa [bookmarkIds, mkImported] using hb
        subst hb'
        exact hfresh newCount (Nat.le_refl _) ha

theorem applyOp_nodup {τ : Type} (emptyTags : τ) (bs : List (Bookmark τ))
    (op : StoreOp τ) (hfresh : opFresh bs op) (hnd : (bookmarkIds bs).Nodup) :
    (bookmarkIds (applyOp emptyTags bs op)).Nodup := by
  cases op with
  | add data newId now =>
    rcases add_saved emptyTags bs data newId now with h | ⟨nb, hid, h⟩
    · simp only [applyOp, h, Option.getD_none]
      exact hnd
    · simp only [applyOp, h, Option.getD_some]
      rw [bookmarkIds_append]
      refine List.Nodup.append hnd (by simp [bookmarkIds]) ?_
      intro a ha hb
      have hb' : a = nb.id := by
        simpa [bookmarkIds] using hb
      subst hb'
      rw [hid] at ha
      exact hfresh ha
  | upd bid data =>
    rcases update_saved bs bid data with h | ⟨b', hid, h⟩
    · simp only [applyOp, h, Option.getD_none]
      exact hnd
    · simp only [applyOp, h, Option.getD_some]
      rw [setFirst_ids bid b' hid bs]
      exact hnd
  | del bid =>
    simp only [applyOp, delete_bookmark, Option.getD_some]
    exact List.Nodup.sublist (ids_filter_sublist bs _) hnd
  | bulkDel ids =>
    simp only [applyOp, bulk_delete_bookmarks, Option.getD_some]
    exact List.Nodup.sublist (ids_filter_sublist bs _) hnd
  | imp content idGen now =>
    obtain ⟨hinj, hfr⟩ := hfresh
    by_cases hp : (parse_netscape_bookmarks content now).isEmpty = true
    · simp only [applyOp, import_bookmarks, hp, if_true, Option.getD_none]
      exact hnd
    · simp only [applyOp, import_bookmarks, hp, Bool.false_eq_true, if_false,
        Option.getD_some]
      exact importLoop_ids emptyTags idGen hinj _ bs _ 0 0
        (fun k _ => hfr k) hnd

/-- C8 (counterexample): ids come from `str(datetime.now().timestamp())` and
no handler ever checks them for uniqueness, so two adds whose clock reads
coincide (same second, as the id strings show) leave two records with the
same id in the persisted collection. -/
theorem c8_counterexample :
    ¬ (bookmarkIds (applyOps () ([] : List (Bookmark Unit))
        [StoreOp.add ⟨none, some "a.com", none, none, none⟩ "1.0" 0,
         StoreOp.add ⟨none, some "b.com", none, none, none⟩ "1.0" 0])).Nodup := by
  decide

/-- C8 (amended): id uniqueness is an invariant of every sequence of add,
update, delete, bulk-delete and import operations only under the freshness
side condition the code silently assumes of its clock: each clock-generated
id (`str(datetime.now().timestamp() ...)`) differs from every stored id,
and an import batch's ids are pairwise distinct.  Update, delete and
bulk-delete preserve uniqueness unconditionally. -/
theorem c8_id_unique {τ : Type} (emptyTags : τ) (bs : List (Bookmark τ))
    (ops : List (StoreOp τ)) (h0 : (bookmarkIds bs).Nodup)
    (hf : FreshAlong emptyTags bs ops) :
    (bookmarkIds (applyOps emptyTags bs ops)).Nodup := by
  induction ops generalizing bs with
  | nil => exact h0
  | cons op ops ih =>
    exact ih (applyOp emptyTags bs op) (applyOp_nodup emptyTags bs op hf.1 h0) hf.2

theorem c8_id_unique_witness :
    (bookmarkIds (applyOps () ([] : List (Bookmark Unit))
        [StoreOp.add ⟨none, some "a.com", none, none, none⟩ "1.0" 0,
         StoreOp.add ⟨none, some "b.com", none, none, none⟩ "2.0" 0])).Nodup :=
  c8_id_unique () []
    [StoreOp.add ⟨none, some "a.com", none, none, none⟩ "1.0" 0,
     StoreOp.add ⟨none, some "b.com", none, none, none⟩ "2.0" 0]
    (by decide)
    ⟨(by decide : ("1.0" : String) ∉ bookmarkIds ([] : List (Bookmark Unit))),
     (by decide : ("2.0" : String) ∉ bookmarkIds (applyOp () ([] : List (Bookmark Unit))
        (StoreOp.add ⟨none, some "a.com", none, none, none⟩ "1.0" 0))),
     trivial⟩

/-! ### Claim C2: escaping in the styled export -/

theorem entTail_append {t B : List Char} (h : entTail t = true) :
    entTail (t ++ B) = true := by
  have mono : ∀ p : List Char, p.isPrefixOf t = true → p.isPrefixOf (t ++ B) = true := by
    intro p hp
    apply List.isPrefixOf_iff_prefix.mpr
    exact (List.isPrefixOf_iff_prefix.mp hp).trans (List.prefix_append t B)
  unfold entTail at h ⊢
  simp only [Bool.or_eq_true] at h ⊢
  rcases h with ((((h | h) | h) | h) | h)
  · exact Or.inl (Or.inl (Or.inl (Or.inl (mono _ h))))
  · exact Or.inl (Or.inl (Or.inl (Or.inr (mono _ h))))
  · exact Or.inl (Or.inl (Or.inr (mono _ h)))
  · exact Or.inl (Or.inr (mono _ h))
  · exact Or.inr (mono _ h)

theorem ampOk_append : ∀ {A B : List Char}, ampOk A = true → ampOk B = true →
    ampOk (A ++ B) = true := by
  intro A
  induction A with
  | nil =>
    intro B _ hb
    exact hb
  | cons c R ih =>
    intro B ha hb
    have ha' := Bool.and_eq_true _ _ |>.mp ha
    show ampOk (c :: (R ++ B)) = true
    simp only [ampOk, Bool.and_eq_true]
    refine ⟨?_, ih ha'.2 hb⟩
    rcases Bool.or_eq_true _ _ |>.mp ha'.1 with h | h
    · exact Bool.or_eq_true _ _ |>.mpr (Or.inl h)
    · exact Bool.or_eq_true _ _ |>.mpr (Or.inr (entTail_append h))

theorem noTailLt_tail {c : Char} {R : List Char} (h : noTailLt (c :: R) = true) :
    noTailLt R = true := by
  cases R with
  | nil => rfl
  | cons b R' =>
    cases R' with
    | nil => exact (Bool.and_eq_true _ _ |>.mp h).2
    | cons c' t => exact h

theorem noTailLt_append : ∀ {A B : List Char}, noTailLt A = true → noTailLt B = true →
    noTailLt (A ++ B) = true := by
  intro A
  induction A with
  | nil =>
    intro B _ hb
    exact hb
  | cons a A' ih =>
    intro B ha hb
    cases A' with
    | nil =>
      cases B with
      | nil => exact ha
      | cons b B' =>
        cases B' with
        | nil =>
          have ha' : (a != '<') = true := ha
          have hb' : (b != '<') = true := hb
          show (a != '<' && (b != '<')) = true
          rw [ha', hb']
          rfl
        | cons b2 t => exact hb
    | cons a2 A'' =>
      cases hR : A'' ++ B with
      | nil =>
        obtain ⟨h1, h2⟩ := List.append_eq_nil.mp hR
        subst h1
        subst h2
        exact ha
      | cons x t' =>
        have hstep : noTailLt ((a2 :: A'') ++ B) = true := ih (noTailLt_tail ha) hb
        rw [show (a :: a2 :: A'') ++ B = a :: a2 :: (A'' ++ B) from rfl, hR]
        rw [show (a2 :: A'') ++ B = a2 :: (A'' ++ B) from rfl, hR] at hstep
        exact hstep

theorem startsSc_two {r1 r2 : Char} (t B : List Char) :
    startsSc (r1 :: r2 :: (t ++ B)) = startsSc (r1 :: r2 :: t) := by
  show List.isPrefixOf ('s' :: 'c' :: []) _ = List.isPrefixOf ('s' :: 'c' :: []) _
  simp [List.isPrefixOf]

theorem noLtSc_append : ∀ {A B : List Char}, noLtSc A = true → noTailLt A = true →
    noLtSc B = true → noLtSc (A ++ B) = true := by
  intro A
  induction A with
  | nil =>
    intro B _ _ hb
    exact hb
  | cons c R ih =>
    intro B ha ht hb
    have ha' := Bool.and_eq_true _ _ |>.mp ha
    show noLtSc (c :: (R ++ B)) = true
    simp only [noLtSc, Bool.and_eq_true]
    refine ⟨?_, ih ha'.2 (noTailLt_tail ht) hb⟩
    by_cases hc : c = '<'
    · subst hc
      have hsc : startsSc R = false := by
        rcases Bool.or_eq_true _ _ |>.mp ha'.1 with h | h
        · simp at h
        · simpa using h
      cases R with
      | nil => exact absurd ht (by decide)
      | cons r1 R1 =>
        cases R1 with
        | nil =>
          exfalso
          have := Bool.and_eq_true _ _ |>.mp ht
          simp at this
        | cons r2 t =>
          apply Bool.or_eq_true _ _ |>.mpr
          right
          rw [show (r1 :: r2 :: t) ++ B = r1 :: r2 :: (t ++ B) from rfl]
          rw [startsSc_two]
          simpa using hsc
    · apply Bool.or_eq_true _ _ |>.mpr
      left
      simpa using hc

theorem safePiece_append {A B : List Char} (ha : safePiece A = true)
    (hb : safePiece B = true) : safePiece (A ++ B) = true := by
  unfold safePiece at ha hb ⊢
  simp only [Bool.and_eq_true] at ha hb ⊢
  exact ⟨⟨noLtSc_append ha.1.1 ha.2 hb.1.1, ampOk_append ha.1.2 hb.1.2⟩,
    noTailLt_append ha.2 hb.2⟩

theorem noLtSc_of_no_lt {l : List Char} (h : '<' ∉ l) : noLtSc l = true := by
  induction l with
  | nil => rfl
  | cons c R ih =>
    rw [List.mem_cons, not_or] at h
    simp only [noLtSc, Bool.and_eq_true]
    refine ⟨?_, ih h.2⟩
    apply Bool.or_eq_true _ _ |>.mpr
    left
    exact bne_iff_ne.mpr (Ne.symm h.1)

theorem noTailLt_of_no_lt {l : List Char} (h : '<' ∉ l) : noTailLt l = true := by
  induction l with
  | nil => rfl
  | cons c R ih =>
    rw [List.mem_cons, not_or] at h
    cases R with
    | nil => exact bne_iff_ne.mpr (Ne.symm h.1)
    | cons b R' =>
      cases R' with
      | nil =>
        have hb : '<' ≠ b := by
          intro hc
          exact h.2 (List.mem_cons.mpr (Or.inl hc))
        show (c != '<' && (b != '<')) = true
        rw [bne_iff_ne.mpr (Ne.symm h.1), bne_iff_ne.mpr (Ne.symm hb)]
        rfl
      | cons b2 t => exact ih h.2

theorem ampOk_of_no_amp {l : List Char} (h : '&' ∉ l) : ampOk l = true := by
  induction l with
  | nil => rfl
  | cons c R ih =>
    rw [List.mem_cons, not_or] at h
    simp only [ampOk, Bool.and_eq_true]
    exact ⟨Bool.or_eq_true _ _ |>.mpr (Or.inl (bne_iff_ne.mpr (Ne.symm h.1))), ih h.2⟩

theorem safePiece_of_no_lt_amp {l : List Char} (h1 : '<' ∉ l) (h2 : '&' ∉ l) :
    safePiece l = true := by
  unfold safePiece
  simp only [Bool.and_eq_true]
  exact ⟨⟨noLtSc_of_no_lt h1, ampOk_of_no_amp h2⟩, noTailLt_of_no_lt h1⟩

theorem safePiece_escape (l : List Char) : safePiece (escapeL l) = true := by
  have hlt : '<' ∉ escapeL l := fun hm => (escapeL_no_meta '<' hm).1 rfl
  unfold safePiece
  simp only [Bool.and_eq_true]
  exact ⟨⟨noLtSc_of_no_lt hlt, escapeL_ampOk l⟩, noTailLt_of_no_lt hlt⟩

theorem safePiece_escape_html (s : String) : safePiece (escape_html s).data = true := by
  rw [escape_html_data]
  exact safePiece_escape s.data

theorem containsSeq_script_eq_false {l : List Char} (h : noLtSc l = true) :
    containsSeq "<script>".data l = false := by
  induction l with
  | nil => rfl
  | cons c t ih =>
    have h' := Bool.and_eq_true _ _ |>.mp h
    show (List.isPrefixOf "<script>".data (c :: t) || containsSeq "<script>".data t) = false
    rw [ih h'.2, Bool.or_false]
    by_cases hc : c = '<'
    · subst hc
      have hsc : startsSc t = false := by
        rcases Bool.or_eq_true _ _ |>.mp h'.1 with hx | hx
        · simp at hx
        · simpa using hx
      cases t with
      | nil => rfl
      | cons t1 t' =>
        cases t' with
        | nil =>
          show List.isPrefixOf "<script>".data ('<' :: t1 :: []) = false
          simp [List.isPrefixOf]
        | cons t2 t'' =>
          have hsc' : (('s' == t1) && (('c' == t2) && true)) = false := by
            have : startsSc (t1 :: t2 :: t'') = false := hsc
            simpa [startsSc, List.isPrefixOf] using this
          show (('<' == '<') && (('s' == t1) && (('c' == t2) &&
            List.isPrefixOf "ript>".data t''))) = false
          simp only [Bool.and_eq_false_iff] at hsc' ⊢
          rcases hsc' with hx | hx
          · right
            left
            exact hx
          · simp at hx
            right
            right
            left
            simpa using hx
    · show (('<' == c) && List.isPrefixOf "script>".data t) = false
      simp only [Bool.and_eq_false_iff]
      left
      exact beq_eq_false_iff_ne.mpr (Ne.symm hc)

theorem data_append (a b : String) : (a ++ b).data = a.data ++ b.data := rfl

set_option maxRecDepth 1000000 in
theorem safe_head1_segs :
    safePiece styledHead1a.data = true ∧ safePiece styledHead1b.data = true ∧
    safePiece styledHead1c.data = true ∧ safePiece styledHead1d.data = true ∧
    safePiece styledHead1e.data = true ∧ safePiece styledHead1f.data = true := by
  refine ⟨?_, ?_, ?_, ?_, ?_, ?_⟩ <;> decide

theorem safe_styledHead1 : safePiece styledHead1.data = true := by
  obtain ⟨h1, h2, h3, h4, h5, h6⟩ := safe_head1_segs
  show safePiece (styledHead1a ++ styledHead1b ++ styledHead1c ++ styledHead1d ++
    styledHead1e ++ styledHead1f).data = true
  simp only [data_append]
  exact safePiece_append (safePiece_append (safePiece_append (safePiece_append
    (safePiece_append h1 h2) h3) h4) h5) h6

set_option maxRecDepth 1000000 in
theorem safe_templates :
    safePiece styledHead2.data = true ∧
    safePiece styledEmpty.data = true ∧ safePiece cardP1.data = true ∧
    safePiece cardP2.data = true ∧ safePiece cardP3.data = true ∧
    safePiece cardP4.data = true ∧ safePiece descP1.data = true ∧
    safePiece descP2.data = true ∧ safePiece tagsOpen.data = true ∧
    safePiece tagP1.data = true ∧ safePiece tagP2.data = true ∧
    safePiece tagsClose.data = true ∧ safePiece cardEnd.data = true ∧
    safePiece styledFooter.data = true := by
  decide

theorem safePiece_tagChips (tags : List String) :
    safePiece (String.join (tags.map
      (fun tg => tagP1 ++ escape_html tg ++ tagP2))).data = true := by
  obtain ⟨hH2, hEmpty, hC1, hC2, hC3, hC4, hD1, hD2, hTO, hT1, hT2, hTC, hCE, hF⟩ :=
    safe_templates
  induction tags with
  | nil => decide
  | cons tg rest ih =>
    rw [join_data, List.map_cons, List.map_cons, List.flatten_cons]
    rw [join_data] at ih
    refine safePiece_append ?_ ih
    rw [data_append, data_append]
    exact safePiece_append (safePiece_append hT1 (safePiece_escape_html tg)) hT2

theorem safePiece_card (b : Bookmark (List String)) :
    safePiece (styledCard b).data = true := by
  obtain ⟨hH2, hEmpty, hC1, hC2, hC3, hC4, hD1, hD2, hTO, hT1, hT2, hTC, hCE, hF⟩ :=
    safe_templates
  have hdesc : safePiece (if b.description ≠ "" then
      descP1 ++ escape_html b.description ++ descP2 else "").data = true := by
    by_cases hd : b.description ≠ ""
    · rw [if_pos hd, data_append, data_append]
      exact safePiece_append (safePiece_append hD1 (safePiece_escape_html _)) hD2
    · rw [if_neg hd]
      decide
  have htags : safePiece (if b.tags ≠ [] then
      tagsOpen ++ String.join (b.tags.map (fun tg => tagP1 ++ escape_html tg ++ tagP2))
        ++ tagsClose else "").data = true := by
    by_cases ht : b.tags ≠ []
    · rw [if_pos ht, data_append, data_append]
      exact safePiece_append (safePiece_append hTO (safePiece_tagChips _)) hTC
    · rw [if_neg ht]
      decide
  unfold styledCard
  simp only [data_append]
  exact safePiece_append (safePiece_append (safePiece_append (safePiece_append
    (safePiece_append (safePiece_append (safePiece_append (safePiece_append
      (safePiece_append hC1 (safePiece_escape_html b.url)) hC2)
      (safePiece_escape_html b.title)) hC3) (safePiece_escape_html b.url)) hC4)
    hdesc) htags) hCE

theorem safePiece_cards (bs : List (Bookmark (List String))) :
    safePiece (String.join (bs.map styledCard)).data = true := by
  induction bs with
  | nil => decide
  | cons b rest ih =>
    rw [join_data, List.map_cons, List.map_cons, List.flatten_cons]
    rw [join_data] at ih
    exact safePiece_append (safePiece_card b) ih

theorem safePiece_export (bs : List (Bookmark (List String))) (now : String)
    (h1 : '<' ∉ now.data) (h2 : '&' ∉ now.data) :
    safePiece (export_bookmarks bs now).data = true := by
  obtain ⟨hH2, hEmpty, hC1, hC2, hC3, hC4, hD1, hD2, hTO, hT1, hT2, hTC, hCE, hF⟩ :=
    safe_templates
  have hnow := safePiece_of_no_lt_amp h1 h2
  have hmid : safePiece (if bs.isEmpty then styledEmpty
      else String.join (bs.map styledCard)).data = true := by
    by_cases hb : bs.isEmpty = true
    · rw [if_pos hb]
      exact hEmpty
    · rw [if_neg hb]
      exact safePiece_cards bs
  unfold export_bookmarks
  simp only [data_append]
  exact safePiece_append (safePiece_append (safePiece_append (safePiece_append
    safe_styledHead1 hnow) hH2) hmid) hF

/-- C2: whatever the bookmark collection holds — in particular titles,
descriptions, URLs or tags containing `<script>`, `"` or `&` — the styled
export page never contains the literal substring `<script>`, every `&` in it
begins one of the five entities `escape_html` emits (no unescaped ampersand
survives), and `escape_html` output is free of the raw characters `<`, `>`,
`"` and `'`, so no user-supplied metacharacter is embedded unescaped.  The
banner date (`strftime('%B %d, %Y at %I:%M %p')`) contains no `<` or `&`,
stated here as hypotheses on the clock string. -/
theorem c2_escaping (bs : List (Bookmark (List String))) (now : String)
    (s : String) (c : Char) (h1 : '<' ∉ now.data) (h2 : '&' ∉ now.data)
    (hc : c ∈ (escape_html s).data) :
    containsSeq "<script>".data (export_bookmarks bs now).data = false ∧
    ampOk (export_bookmarks bs now).data = true ∧
    c ≠ '<' ∧ c ≠ '>' ∧ c ≠ '"' ∧ c ≠ '\'' := by
  have hs := safePiece_export bs now h1 h2
  unfold safePiece at hs
  simp only [Bool.and_eq_true] at hs
  refine ⟨containsSeq_script_eq_false hs.1.1, hs.1.2, ?_⟩
  rw [escape_html_data] at hc
  exact escapeL_no_meta c hc

theorem c2_escaping_witness :
    containsSeq "<script>".data (export_bookmarks
      [⟨"1", "<script>alert(\"x\")</script>", "https://a.com?q=1&r=2",
        "a 'description' with <script>", ["<sc", "b&b"], "Cat", 0⟩]
      "January 01, 2026 at 10:00 AM").data = false ∧
    ampOk (export_bookmarks
      [⟨"1", "<script>alert(\"x\")</script>", "https://a.com?q=1&r=2",
        "a 'description' with <script>", ["<sc", "b&b"], "Cat", 0⟩]
      "January 01, 2026 at 10:00 AM").data = true ∧
    '&' ≠ '<' ∧ '&' ≠ '>' ∧ '&' ≠ '"' ∧ '&' ≠ '\'' :=
  c2_escaping
    [⟨"1", "<script>alert(\"x\")</script>", "https://a.com?q=1&r=2",
      "a 'description' with <script>", ["<sc", "b&b"], "Cat", 0⟩]
    "January 01, 2026 at 10:00 AM" "\"" '&' (by decide) (by decide) (by decide)
